import Mathlib

/-!
Verification development for the cybercache repository (Python backend).

The Python sources under `src/backend/` are shallowly embedded below:
pure helper functions become Lean functions over `List Char` / `List Nat`,
the SQLite-backed `Database` class becomes explicit state passing over a
`DBState` record, and fallible operations return `Except`/`Option`.
Timestamps are modelled as abstract clock instants (`Nat`); the hash
function (`hashlib.md5`) and the FTS5 `MATCH` tokenizer are external
library code and are passed in as explicit parameters.
-/

set_option maxRecDepth 4000

/-- Decidable equality for `Except`, so concrete runs of the fallible
operations can be checked by `decide`. -/
instance {ε α : Type} [DecidableEq ε] [DecidableEq α] : DecidableEq (Except ε α) := fun x y =>
  match x, y with
  | .ok a, .ok b =>
    if h : a = b then .isTrue (by rw [h]) else .isFalse (by simp [h])
  | .error a, .error b =>
    if h : a = b then .isTrue (by rw [h]) else .isFalse (by simp [h])
  | .ok _, .error _ => .isFalse (by simp)
  | .error _, .ok _ => .isFalse (by simp)

/-! ## Generic list/string utilities -/

/-- `listStartsWith t p` is true when `p` is a prefix of `t`
(Python `str.startswith` over explicit character lists). -/
def listStartsWith : List Char → List Char → Bool
  | _, [] => true
  | [], _ :: _ => false
  | a :: as, b :: bs => a = b && listStartsWith as bs

/-- `containsSub text pat` is true when `pat` occurs as a contiguous
substring of `text` (Python `pat in text`). -/
def containsSub : List Char → List Char → Bool
  | t, p =>
    if listStartsWith t p then true
    else
      match t with
      | [] => false
      | _ :: ts => containsSub ts p

/-- Split a character list on a separator character
(used to model `pathlib` path components). -/
def splitOnChar (sep : Char) : List Char → List (List Char)
  | [] => [[]]
  | c :: cs =>
    let r := splitOnChar sep cs
    if c = sep then [] :: r
    else
      match r with
      | [] => [[c]]
      | h :: t => (c :: h) :: t

/-- Python `', '.join(tags)`. -/
def joinComma : List String → String
  | [] => ""
  | [s] => s
  | s :: rest => s ++ ", " ++ joinComma rest

/-! ## Classifier (src/backend/classifier.py)

`ResourceClassifier.__init__` installs two fixed keyword tables; the
keyword fallback `_classify_keywords` scores categories by counting
keyword phrases occurring as substrings of the (caller-lowercased) text.
-/

/-- Keyword list of the `'Blue Team'` entry of `self.category_keywords`. -/
def blueTeamKeywords : List String :=
  ["defense", "defensive", "siem", "soc", "monitoring", "detection",
   "incident response", "forensics", "blue team", "splunk", "elk",
   "security operations", "threat detection", "ids", "ips", "firewall",
   "hardening", "compliance", "audit", "defender", "edr", "xdr"]

/-- Keyword list of the `'Red Team'` entry of `self.category_keywords`. -/
def redTeamKeywords : List String :=
  ["offensive", "penetration", "pentest", "exploit", "attack",
   "vulnerability", "metasploit", "kali", "red team", "social engineering",
   "phishing", "payload", "reverse shell", "privilege escalation",
   "lateral movement", "persistence", "evasion", "bypass", "crack"]

/-- Keyword list of the `'Threat Intelligence'` entry of
`self.category_keywords`. -/
def threatIntelKeywords : List String :=
  ["intelligence", "threat intel", "apt", "indicators", "ioc",
   "threat actor", "campaign", "attribution", "malware analysis",
   "threat hunting", "osint", "reconnaissance", "mitre att&ck",
   "threat landscape", "adversary", "ttp"]

/-- `self.category_keywords` from `ResourceClassifier.__init__`,
in Python dict insertion order. -/
def category_keywords : List (String × List String) :=
  [("Blue Team", blueTeamKeywords),
   ("Red Team", redTeamKeywords),
   ("Threat Intelligence", threatIntelKeywords)]

/-- `self.tag_keywords` from `ResourceClassifier.__init__`. -/
def tag_keywords : List (String × List String) :=
  [("virtual-machine", ["vm", "virtual machine", "virtualbox", "vmware", "ova", "ovf"]),
   ("cheatsheet", ["cheat sheet", "cheatsheet", "quick reference", "commands"]),
   ("poster", ["poster", "infographic", "visual guide", "reference card"]),
   ("tool", ["tool", "software", "utility", "application", "framework"]),
   ("framework", ["framework", "methodology", "standard", "model"]),
   ("guide", ["guide", "tutorial", "walkthrough", "handbook", "manual"]),
   ("training", ["training", "course", "learning", "education", "ctf"]),
   ("certification", ["certification", "cert", "exam", "qualification"]),
   ("documentation", ["documentation", "docs", "reference", "specification"]),
   ("research", ["research", "paper", "whitepaper", "study", "analysis"])]

/-- `sum(1 for keyword in keywords if keyword in text)`. -/
def keywordScore (text : List Char) (kws : List String) : Nat :=
  (kws.filter (fun k => containsSub text k.data)).length

/-- The `category_scores` dict of `_classify_keywords`: only categories
with a strictly positive score are inserted, in declaration order. -/
def categoryScores (text : List Char) : List (String × Nat) :=
  category_keywords.filterMap (fun ck =>
    let s := keywordScore text ck.2
    if 0 < s then some (ck.1, s) else none)

/-- Loop of CPython `max(iterable, key=f)`: a later element replaces the
current maximum only when its key is strictly greater, so on ties the
earliest element wins. -/
def pyMaxGo (c : String) (s : Nat) : List (String × Nat) → String
  | [] => c
  | (c2, s2) :: rest => if s < s2 then pyMaxGo c2 s2 rest else pyMaxGo c s rest

/-- `max(category_scores, key=category_scores.get) if category_scores else None`. -/
def pyMaxByVal : List (String × Nat) → Option String
  | [] => none
  | (c, s) :: rest => some (pyMaxGo c s rest)

/-- Result record of `_classify_keywords`. -/
structure KwResult where
  category : Option String
  tags : List String
  confidence : String
deriving Repr, DecidableEq

/-- `ResourceClassifier._classify_keywords` (classifier.py lines 134-165).
The caller (`classify`) passes the lowercased concatenation of all text
fields; this function is deterministic in `text`. -/
def classify_keywords (text : List Char) : KwResult :=
  let cs := categoryScores text
  let primary := pyMaxByVal cs
  let tags := tag_keywords.filterMap (fun tk =>
    if tk.2.any (fun k => containsSub text k.data) then some tk.1 else none)
  let tags := tags ++
    (match primary with
     | some c =>
       if containsSub c.data "Blue Team".data then ["defensive"]
       else if containsSub c.data "Red Team".data then ["offensive"]
       else if containsSub c.data "Intelligence".data then ["intelligence"]
       else []
     | none => [])
  { category := primary
    tags := tags
    confidence := if cs.isEmpty then "low" else "medium" }

/-- The category selection rule exactly as the spec sentence words it:
the strictly-highest-scoring of the three built-in categories, ties
resolved toward the first-declared one (Blue Team, then Red Team, then
Threat Intelligence); no positive score at all yields no category. -/
def keywordSpecCategory (text : List Char) : Option String :=
  let sB := keywordScore text blueTeamKeywords
  let sR := keywordScore text redTeamKeywords
  let sT := keywordScore text threatIntelKeywords
  if sB = 0 ∧ sR = 0 ∧ sT = 0 then none
  else if sR ≤ sB ∧ sT ≤ sB then some "Blue Team"
  else if sT ≤ sR then some "Red Team"
  else some "Threat Intelligence"

/-- Spec-side confidence rule: `"low"` when no category scored above
zero, `"medium"` otherwise. -/
def keywordSpecConfidence (text : List Char) : String :=
  if keywordScore text blueTeamKeywords = 0 ∧
     keywordScore text redTeamKeywords = 0 ∧
     keywordScore text threatIntelKeywords = 0 then "low" else "medium"

/-! ## Validator (src/backend/security.py)

`InputValidator` is a collection of pure functions over strings; we embed
the ones the claims touch over `List Char`.  `html.escape` and
`str.strip` are Python standard library calls used by
`sanitize_string`; they are embedded below (`escChar`/`escape`,
`pyStrip`), with Python's Unicode whitespace set restricted to its ASCII
members, which is all the proofs use.
-/

/-- ASCII part of the whitespace set stripped by Python `str.strip()`. -/
def isPyWS (c : Char) : Bool :=
  c = ' ' || c = '\t' || c = '\n' || c = '\r' || c = '\x0b' || c = '\x0c'

/-- Per-character action of Python `html.escape(s, quote=True)`. -/
def escChar (c : Char) : List Char :=
  if c = '&' then "&amp;".data
  else if c = '<' then "&lt;".data
  else if c = '>' then "&gt;".data
  else if c = '"' then "&quot;".data
  else if c = '\'' then "&#x27;".data
  else [c]

/-- Python `html.escape(s, quote=True)`: `&` is replaced first, then the
other four specials, which is equivalent to this single left-to-right
character map. -/
def escape : List Char → List Char
  | [] => []
  | c :: cs => escChar c ++ escape cs

/-- Remove trailing characters satisfying `isPyWS` (right half of
Python `str.strip()`), defined head-recursively to ease induction. -/
def stripRight : List Char → List Char
  | [] => []
  | c :: cs =>
    match stripRight cs with
    | [] => if isPyWS c then [] else [c]
    | r => c :: r

/-- Python `str.strip()` (ASCII whitespace). -/
def pyStrip (l : List Char) : List Char :=
  stripRight (l.dropWhile isPyWS)

/-- The five characters `html.escape` rewrites. -/
def isHtmlSpecial (c : Char) : Bool :=
  c = '&' || c = '<' || c = '>' || c = '"' || c = '\''

/-- `InputValidator.sanitize_string(value, max_length)` with
`allow_html=False` (security.py lines 37-64): strip, HTML-escape, then
truncate to `maxLength` characters. -/
def sanitize_string (value : List Char) (maxLength : Nat) : List Char :=
  let v := escape (pyStrip value)
  if 0 < maxLength ∧ maxLength < v.length then v.take maxLength else v

/-- `MAX_URL_LENGTH`. -/
def MAX_URL_LENGTH : Nat := 2000

/-- `ALLOWED_URL_SCHEMES`. -/
def ALLOWED_URL_SCHEMES : List String := ["http", "https", "ftp", "sftp"]

/-- Characters CPython's `urllib.parse` accepts inside a URL scheme
after the leading letter. -/
def isSchemeChar (c : Char) : Bool :=
  c.isAlpha || c.isDigit || c = '+' || c = '-' || c = '.'

/-- Scheme extraction of CPython `urlsplit`: the text before the first
`:` is the (lowercased) scheme when it is non-empty, starts with an
ASCII letter and contains only scheme characters; otherwise the scheme
is empty. -/
def schemeOf (u : List Char) : List Char :=
  let pre := u.takeWhile (fun c => c != ':')
  if pre.length < u.length ∧ pre ≠ [] ∧
     (match pre with | c :: _ => c.isAlpha | [] => false) = true ∧
     pre.all isSchemeChar
  then pre.map Char.toLower else []

/-- The `dangerous_patterns` list of `validate_url`. -/
def dangerous_patterns : List String :=
  ["javascript:", "data:", "vbscript:", "file:"]

/-- `InputValidator.validate_url` (security.py lines 87-129): empty
input returns `""`; otherwise the input is sanitized
(strip + HTML-escape + truncate to 2000), its scheme checked against the
allow-list, the lowercased string scanned for dangerous patterns, and
the sanitized string returned. -/
def validate_url (url : List Char) : Except String (List Char) :=
  if url = [] then .ok []
  else
    let u := sanitize_string url MAX_URL_LENGTH
    let scheme := schemeOf u
    if scheme ≠ [] ∧ ¬ ALLOWED_URL_SCHEMES.contains (String.mk scheme) then
      .error "URL scheme not allowed"
    else
      let lower := u.map Char.toLower
      if dangerous_patterns.any (fun p => containsSub lower p.data) then
        .error "Potentially dangerous URL pattern detected"
      else
        .ok u

/-- Character class kept by `sanitize_filename`'s
`re.sub(r'[^a-zA-Z0-9._-]', '_', filename)`. -/
def isAllowedFilenameChar (c : Char) : Bool :=
  ('a' ≤ c && c ≤ 'z') || ('A' ≤ c && c ≤ 'Z') || ('0' ≤ c && c ≤ '9') ||
  c = '.' || c = '_' || c = '-'

/-- `pathlib.Path(filename).name` on POSIX: the last path component,
with empty and `.` components dropped. -/
def pathName (s : List Char) : List Char :=
  let comps := (splitOnChar '/' s).filter (fun c => c != [] && c != ['.'])
  match comps.getLast? with
  | some c => c
  | none => []

/-- `filename.rsplit('.', 1)` when `'.' in filename`: split at the last
dot into (stem, extension). -/
def rsplitDot (l : List Char) : List Char × List Char :=
  let r := l.reverse
  let extR := r.takeWhile (fun c => c != '.')
  let restR := r.dropWhile (fun c => c != '.')
  ((restR.drop 1).reverse, extR.reverse)

/-- The truncation step of `sanitize_filename`: keep the first 250
characters of the stem and reattach the (unshortened) extension; a name
without a dot is simply cut to 250 characters, and an empty extension
(trailing dot) is dropped. -/
def truncateFilename (name : List Char) : List Char :=
  if name.contains '.' then
    let (stem, ext) := rsplitDot name
    stem.take 250 ++ (if ext = [] then [] else '.' :: ext)
  else name.take 250

/-- `re.sub(r'[^a-zA-Z0-9._-]', '_', ...)` applied to the basename. -/
def substituteName (s : List Char) : List Char :=
  (pathName s).map (fun c => if isAllowedFilenameChar c then c else '_')

/-- `if filename.startswith('.'): filename = '_' + filename[1:]` — the
leading dot is replaced by an underscore. -/
def neutralizeLeadingDot : List Char → List Char
  | '.' :: rest => '_' :: rest
  | other => other

/-- The basename after character substitution and hidden-file
neutralization, before the length checks of `sanitize_filename`. -/
def cleanedName (s : List Char) : List Char :=
  neutralizeLeadingDot (substituteName s)

/-- `InputValidator.sanitize_filename` (security.py lines 209-243). -/
def sanitize_filename (filename : List Char) : Except String (List Char) :=
  if filename = [] then .error "Filename is required"
  else
    let n := cleanedName filename
    if n = [] ∨ n = ['.'] then .error "Invalid filename"
    else if 255 < n.length then .ok (truncateFilename n)
    else .ok n

/-- `InputValidator.ALLOWED_EXTENSIONS` (security.py lines 30-35). -/
def ALLOWED_EXTENSIONS : List String :=
  [".pdf", ".png", ".jpg", ".jpeg", ".gif", ".webp",
   ".mp4", ".webm", ".doc", ".docx", ".txt", ".md",
   ".csv", ".json", ".xml", ".zip", ".tar", ".gz"]

/-! ## Ingestion Watcher (src/backend/file_watcher.py) -/

/-- `ContentWatcher.__init__`'s `self.supported_extensions`
(file_watcher.py lines 15-18). -/
def supported_extensions : List String :=
  [".pdf", ".png", ".jpg", ".jpeg", ".gif", ".webp",
   ".mp4", ".webm", ".doc", ".docx", ".txt", ".md"]

/-! ## Catalogue Store (src/backend/database.py)

`Database` wraps one SQLite file.  The embedding models the `resources`
table, the `resources_fts` FTS5 mirror and the three synchronisation
triggers installed by `init_db` as explicit state.  `hashlib.md5` is
external library code: the operations take an arbitrary hash function
`hashFn` as a parameter (the claims only use that it is a function).
SQLite raises `IntegrityError` for constraint violations and other
`sqlite3.Error`s for environmental storage faults; the latter are
modelled by an explicit `fault` parameter injected at statement
execution.  Timestamps (`CURRENT_TIMESTAMP`, `datetime.now()`) are one
abstract monotone clock passed in as `now : Nat`. -/

/-- Raw file bytes. -/
abbrev Bytes := List Nat

/-- Errors raised by the modelled SQLite layer.  The first two
constructors together are Python's `sqlite3.IntegrityError`; `operational`
stands for every other `sqlite3.Error` (I/O fault, unknown column, ...). -/
inductive SqlError where
  | notNullViolation (col : String)
  | uniqueViolation (col : String)
  | operational (msg : String)
deriving Repr, DecidableEq

/-- Which errors Python's `except sqlite3.IntegrityError` catches. -/
def SqlError.isIntegrity : SqlError → Bool
  | .notNullViolation _ => true
  | .uniqueViolation _ => true
  | .operational _ => false

/-- One row of the `resources` table (database.py lines 25-45).
Nullable SQL columns are `Option`; `id` is the AUTOINCREMENT key and the
two timestamps are abstract clock instants. -/
structure ResourceRow where
  id : Nat
  title : Option String
  description : Option String
  file_path : Option String
  file_data : Option Bytes
  file_type : Option String
  file_size : Option Int
  file_hash : Option String
  category : Option String
  tags : Option String
  url : Option String
  resource_type : Option String
  thumbnail_path : Option String
  classifier_used : Option String
  classification_confidence : Option String
  created_at : Nat
  updated_at : Nat
deriving Repr, DecidableEq

/-- One row of the `resources_fts` index: the `(title, description,
tags, category)` projection keyed by the resource id (database.py
lines 48-58). -/
structure FtsRow where
  rowid : Nat
  title : Option String
  description : Option String
  tags : Option String
  category : Option String
deriving Repr, DecidableEq

/-- The FTS projection of a resource row, as built by the
`resources_ai` / `resources_au` triggers. -/
def ftsProjection (r : ResourceRow) : FtsRow :=
  { rowid := r.id, title := r.title, description := r.description,
    tags := r.tags, category := r.category }

/-- Database state: the two tables plus the AUTOINCREMENT counter. -/
structure DBState where
  resources : List ResourceRow
  fts : List FtsRow
  nextId : Nat
deriving Repr, DecidableEq

/-- A freshly initialised store (`init_db`; the seeded `categories`
table is not touched by any claim and is omitted). -/
def emptyDB : DBState := { resources := [], fts := [], nextId := 1 }

/-- Executable well-formedness used as a theorem hypothesis: every
stored row's id is below the AUTOINCREMENT counter (true of every state
SQLite can reach). -/
def DBState.wfB (st : DBState) : Bool :=
  st.resources.all (fun r => r.id < st.nextId)

/-- The `tags` argument of `add_resource` may be a Python list or a
string (`None` included). -/
inductive TagsIn where
  | str (s : Option String)
  | list (l : List String)
deriving Repr, DecidableEq

/-- `if isinstance(tags, list): tags = ', '.join(tags)`. -/
def tagsToText : TagsIn → Option String
  | .str s => s
  | .list l => some (joinComma l)

/-- Keyword arguments of `Database.add_resource` with their Python
default values (database.py lines 120-123). -/
structure AddArgs where
  title : Option String
  description : Option String := some ""
  file_path : Option String := none
  file_data : Option Bytes := none
  file_type : Option String := none
  file_size : Option Int := some 0
  category : Option String := some ""
  tags : TagsIn := .str (some "")
  url : Option String := some ""
  resource_type : Option String := some "file"
  thumbnail_path : Option String := none
  classifier_used : Option String := none
  classification_confidence : Option String := none
deriving Repr, DecidableEq

/-- The hash/payload resolution at the top of `add_resource`
(database.py lines 128-137): when a truthy `file_path` names an existing
file and no explicit `file_data` was given, the file is read and both
hash and payload come from its content; otherwise a truthy (non-empty)
`file_data` is hashed directly; an empty or missing payload gets no
hash.  `fs` models the filesystem (`Path.exists` + `open().read()`). -/
def resolvePayload (a : AddArgs) (fs : String → Option Bytes)
    (hashFn : Bytes → String) : Option String × Option Bytes :=
  match a.file_data with
  | some d => if d = [] then (none, some d) else (some (hashFn d), some d)
  | none =>
    match a.file_path with
    | some p =>
      if p = "" then (none, none)
      else
        match fs p with
        | some content => (some (hashFn content), some content)
        | none => (none, none)
    | none => (none, none)

/-- Does inserting a row with hash `h` violate the `file_hash UNIQUE`
constraint?  SQLite treats NULLs as pairwise distinct, so only a
non-null duplicate conflicts. -/
def hashConflict (st : DBState) (h : Option String) : Bool :=
  match h with
  | none => false
  | some hv => st.resources.any (fun r => r.file_hash == some hv)

/-- The `INSERT INTO resources ...` statement of `add_resource`
(database.py lines 144-152) together with the `resources_ai` trigger:
enforces the NOT NULL and UNIQUE constraints, appends the row and its
FTS projection atomically, and returns `lastrowid`.  A `fault` models an
environmental `sqlite3.Error` other than a constraint violation. -/
def execInsert (a : AddArgs) (file_hash : Option String)
    (file_data : Option Bytes) (tags : Option String) (fault : Option String)
    (now : Nat) (st : DBState) : Except SqlError (Nat × DBState) :=
  match fault with
  | some m => .error (.operational m)
  | none =>
    if a.title = none then .error (.notNullViolation "title")
    else if a.resource_type = none then .error (.notNullViolation "resource_type")
    else if hashConflict st file_hash then .error (.uniqueViolation "file_hash")
    else
      let row : ResourceRow :=
        { id := st.nextId, title := a.title, description := a.description,
          file_path := a.file_path, file_data := file_data,
          file_type := a.file_type, file_size := a.file_size,
          file_hash := file_hash, category := a.category, tags := tags,
          url := a.url, resource_type := a.resource_type,
          thumbnail_path := a.thumbnail_path,
          classifier_used := a.classifier_used,
          classification_confidence := a.classification_confidence,
          created_at := now, updated_at := now }
      .ok (st.nextId,
        { resources := st.resources ++ [row],
          fts := st.fts ++ [ftsProjection row],
          nextId := st.nextId + 1 })

/-- `Database.add_resource` (database.py lines 120-161): resolve the
payload and hash, insert, return the new id; `except sqlite3.IntegrityError:
return None` converts any constraint violation (not only the duplicate
hash) into a null result, while other storage errors propagate. -/
def add_resource (a : AddArgs) (fs : String → Option Bytes)
    (hashFn : Bytes → String) (fault : Option String) (now : Nat)
    (st : DBState) : Except SqlError (Option Nat × DBState) :=
  let hd := resolvePayload a fs hashFn
  match execInsert a hd.1 hd.2 (tagsToText a.tags) fault now st with
  | .ok (id, st2) => .ok (some id, st2)
  | .error e => if e.isIntegrity then .ok (none, st) else .error e

/-- `Database.get_resource` (database.py lines 163-181).  With
`include_file_data=False` the SQL omits the BLOB column; the model
returns the row with `file_data` cleared (an absent and a NULL column
are indistinguishable here). -/
def get_resource (st : DBState) (resource_id : Nat)
    (include_file_data : Bool) : Option ResourceRow :=
  match st.resources.find? (fun r => r.id == resource_id) with
  | some r => some (if include_file_data then r else { r with file_data := none })
  | none => none

/-- A JSON scalar as bound into a parameterized SQL statement by the
HTTP layer (`request.json` values forwarded to `update_resource`). -/
inductive JsonVal where
  | null
  | str (s : String)
  | num (n : Int)
deriving Repr, DecidableEq

/-- Columns of the `resources` table, from the `CREATE TABLE` statement. -/
def resourceColumns : List String :=
  ["id", "title", "description", "file_path", "file_data", "file_type",
   "file_size", "file_hash", "category", "tags", "url", "resource_type",
   "thumbnail_path", "classifier_used", "classification_confidence",
   "created_at", "updated_at"]

/-- SQLite TEXT-affinity coercion of a bound JSON scalar. -/
def jsonToText : JsonVal → Option String
  | .null => none
  | .str s => some s
  | .num n => some (toString n)

/-- SQLite INTEGER-affinity coercion of a bound JSON scalar (a
non-numeric string would keep TEXT storage; the model drops it, which no
claim exercises). -/
def jsonToInt : JsonVal → Option Int
  | .null => none
  | .num n => some n
  | .str s => s.toInt?

/-- Coercion into the BLOB column (JSON has no byte strings; text is
stored as its code points — approximation, unused by the claims). -/
def jsonToBlob : JsonVal → Option Bytes
  | .null => none
  | .str s => some (s.data.map Char.toNat)
  | .num n => some [n.toNat]

/-- Coercion into the abstract-instant timestamp columns (only numeric
updates are representable in the model; no claim updates them). -/
def jsonToInstant : JsonVal → Nat
  | .num n => n.toNat
  | _ => 0

/-- The columns of the `resources` table as an enumeration (the SQL
layer resolves the interpolated `SET <k> = ?` names against this set). -/
inductive ResCol where
  | id | title | description | file_path | file_data | file_type
  | file_size | file_hash | category | tags | url | resource_type
  | thumbnail_path | classifier_used | classification_confidence
  | created_at | updated_at
deriving Repr, DecidableEq

/-- SQL name of each column. -/
def colName : ResCol → String
  | .id => "id"
  | .title => "title"
  | .description => "description"
  | .file_path => "file_path"
  | .file_data => "file_data"
  | .file_type => "file_type"
  | .file_size => "file_size"
  | .file_hash => "file_hash"
  | .category => "category"
  | .tags => "tags"
  | .url => "url"
  | .resource_type => "resource_type"
  | .thumbnail_path => "thumbnail_path"
  | .classifier_used => "classifier_used"
  | .classification_confidence => "classification_confidence"
  | .created_at => "created_at"
  | .updated_at => "updated_at"

/-- All columns, in table order. -/
def allResCols : List ResCol :=
  [.id, .title, .description, .file_path, .file_data, .file_type,
   .file_size, .file_hash, .category, .tags, .url, .resource_type,
   .thumbnail_path, .classifier_used, .classification_confidence,
   .created_at, .updated_at]

/-- Column-name resolution. -/
def colOf (k : String) : Option ResCol :=
  allResCols.find? (fun c => colName c == k)

/-- Effect of `SET <col> = ?` on one row. -/
def setCol (r : ResourceRow) (c : ResCol) (v : JsonVal) : ResourceRow :=
  match c with
  | .id => { r with id := jsonToInstant v }
  | .title => { r with title := jsonToText v }
  | .description => { r with description := jsonToText v }
  | .file_path => { r with file_path := jsonToText v }
  | .file_data => { r with file_data := jsonToBlob v }
  | .file_type => { r with file_type := jsonToText v }
  | .file_size => { r with file_size := jsonToInt v }
  | .file_hash => { r with file_hash := jsonToText v }
  | .category => { r with category := jsonToText v }
  | .tags => { r with tags := jsonToText v }
  | .url => { r with url := jsonToText v }
  | .resource_type => { r with resource_type := jsonToText v }
  | .thumbnail_path => { r with thumbnail_path := jsonToText v }
  | .classifier_used => { r with classifier_used := jsonToText v }
  | .classification_confidence => { r with classification_confidence := jsonToText v }
  | .created_at => { r with created_at := jsonToInstant v }
  | .updated_at => { r with updated_at := jsonToInstant v }

/-- Effect of `SET <k> = ?` on one row for a caller-supplied name.  An
unknown name never reaches this point: `update_resource` has already
raised `OperationalError` for it. -/
def setField (r : ResourceRow) (k : String) (v : JsonVal) : ResourceRow :=
  match colOf k with
  | some c => setCol r c v
  | none => r

/-- The row produced by one `UPDATE` statement: the supplied fields
applied left to right, then `updated_at = ?` (the SQL appends that
assignment last). -/
def updatedRow (fields : List (String × JsonVal)) (r0 : ResourceRow)
    (now : Nat) : ResourceRow :=
  { fields.foldl (fun acc kv => setField acc kv.1 kv.2) r0 with
    updated_at := now }

/-- `Database.update_resource` (database.py lines 251-276).  The caller's
keyword names are interpolated into the SQL text (`f'{key} = ?'`), so a
name that is not a column makes the statement fail to prepare: SQLite
raises `OperationalError` (`no such column`), which `update_resource`
does not catch.  Otherwise the statement applies the supplied fields,
always sets `updated_at` (the SQL appends `updated_at = ?` last), fires
the `resources_au` trigger, and reports whether a row matched. -/
def update_resource (resource_id : Nat) (kwargs : List (String × JsonVal))
    (now : Nat) (st : DBState) : Except SqlError (Bool × DBState) :=
  let fields := kwargs.filter (fun kv => kv.1 != "id")
  if fields = [] then .ok (false, st)
  else if fields.any (fun kv => !(resourceColumns.contains kv.1)) then
    .error (.operational "no such column")
  else
    match st.resources.find? (fun r => r.id == resource_id) with
    | none => .ok (false, st)
    | some r0 =>
      let r1 : ResourceRow := updatedRow fields r0 now
      if r1.title = none then .error (.notNullViolation "title")
      else if r1.resource_type = none then .error (.notNullViolation "resource_type")
      else if (match r1.file_hash with
               | some hv => st.resources.any
                   (fun r => r.id != resource_id && r.file_hash == some hv)
               | none => false) then .error (.uniqueViolation "file_hash")
      else
        .ok (true,
          { st with
            resources := st.resources.map
              (fun r => if r.id = resource_id then r1 else r),
            fts := st.fts.map
              (fun f => if f.rowid = resource_id then ftsProjection r1 else f) })

/-- `Database.delete_resource` (database.py lines 278-287) with the
`resources_ad` trigger: remove the row and its FTS projection, report
whether a row matched. -/
def delete_resource (resource_id : Nat) (st : DBState) : Bool × DBState :=
  (st.resources.any (fun r => r.id == resource_id),
   { st with
     resources := st.resources.filter (fun r => r.id != resource_id),
     fts := st.fts.filter (fun f => f.rowid != resource_id) })

/-- `Database.search_resources` (database.py lines 224-249): join
`resources` with `resources_fts` on `id = rowid`, keep rows whose FTS
row matches the query, optionally narrow to a truthy category, and
apply the limit.  The FTS5 `MATCH`/tokenizer semantics are external to
the repository and passed in as the predicate `matchQ`; the `ORDER BY
rank` step permutes the kept rows and is omitted (no claim depends on
the order). -/
def search_resources (st : DBState) (matchQ : String → FtsRow → Bool)
    (query : String) (category : Option String) (limit : Nat) :
    List ResourceRow :=
  let joined := st.resources.filter (fun r =>
    st.fts.any (fun f => f.rowid == r.id && matchQ query f))
  let narrowed := match category with
    | some c => if c = "" then joined else joined.filter (fun r => r.category == some c)
    | none => joined
  narrowed.take limit

/-- The PUT `/api/resources/<id>` route handler (app.py lines 135-145):
it forwards the request's JSON object to `update_resource` unchanged
(`db.update_resource(resource_id, **data)`) and maps the outcome to an
HTTP status; an uncaught exception becomes Flask's 500 response and
leaves the store unchanged. -/
def put_route (resource_id : Nat) (data : List (String × JsonVal))
    (now : Nat) (st : DBState) : Nat × DBState :=
  match update_resource resource_id data now st with
  | .ok (true, st2) => (200, st2)
  | .ok (false, st2) => (404, st2)
  | .error _ => (500, st)

/-- Whether a JSON object (list of key/value pairs) supplies a key. -/
def hasKey (kwargs : List (String × JsonVal)) (k : String) : Bool :=
  kwargs.any (fun kv => kv.1 == k)

/-! ## Concrete instances used by witnesses and counterexamples -/

/-- A concrete hash function standing in for `hashlib.md5` (the claims
use only that the same bytes hash to the same digest). -/
def hashRepr : Bytes → String := fun bs => toString bs

/-- An empty filesystem (no `file_path` resolves). -/
def fsNone : String → Option Bytes := fun _ => none

/-- `add_resource` call with an explicit non-empty payload. -/
def argsPayload : AddArgs := { title := some "a file", file_data := some [7, 7, 7] }

/-- `add_resource` call with an explicit empty (`b''`) payload: Python's
`elif file_data:` is false for it, so no hash is computed. -/
def argsEmptyPayload : AddArgs := { title := some "empty file", file_data := some [] }

/-- `add_resource` call with a NULL title (violates `title TEXT NOT NULL`). -/
def argsNullTitle : AddArgs := { title := none }

/-- Run `add_resource` twice from a fresh store with the same arguments
and return the second call's id outcome (`None` = duplicate signal). -/
def addTwiceSecondId (a : AddArgs) : Option Nat :=
  match add_resource a fsNone hashRepr none 0 emptyDB with
  | .ok (_, s1) =>
    match add_resource a fsNone hashRepr none 1 s1 with
    | .ok (r, _) => r
    | .error _ => none
  | .error _ => none

/-- State after one `add_resource` call (used to build concrete
scenarios; falls back to the input state on error). -/
def afterAdd (a : AddArgs) (now : Nat) (st : DBState) : DBState :=
  match add_resource a fsNone hashRepr none now st with
  | .ok (_, s) => s
  | .error _ => st

/-- State after one `update_resource` call. -/
def afterUpdate (resource_id : Nat) (kwargs : List (String × JsonVal))
    (now : Nat) (st : DBState) : DBState :=
  match update_resource resource_id kwargs now st with
  | .ok (_, s) => s
  | .error _ => st

/-- A concrete FTS match predicate (exact title match) standing in for
the external FTS5 tokenizer in witnesses. -/
def matchTitle : String → FtsRow → Bool := fun q f => f.title == some q

/-- A filename whose extension is 260 characters long: the truncation
step keeps 250 stem characters and the whole extension. -/
def longExtFilename : List Char := 'a' :: '.' :: List.replicate 260 'b'

/-- 2000-character input `&amp;amp;...amp` on which escape-then-truncate
reproduces the input exactly. -/
def ampFixpoint : List Char :=
  '&' :: (List.replicate 499 "amp;".data).flatten ++ "amp".data

/-- A short URL with a query-string ampersand. -/
def ampUrl : List Char := "http://a?x=1&y=2".data

/-! ## Claim C7: watcher extensions vs validator allow-list -/

/-- C7 counterexample: the claim says the watcher's
`supported_extensions` is a superset of the validator's
`ALLOWED_EXTENSIONS`, but `.csv` is allowed for upload while the
watcher does not support it, so the superset inclusion is false. -/
theorem watcher_superset_counterexample :
    ALLOWED_EXTENSIONS.contains ".csv" = true ∧
    supported_extensions.contains ".csv" = false := by
  constructor <;> decide

/-- C7 (amended): the Ingestion Watcher's fixed extension set is a
strict subset of the Validator's upload allow-list — every watcher
extension is allowed for upload, but not conversely. -/
theorem watcher_extensions_strict_subset :
    supported_extensions.all (fun e => ALLOWED_EXTENSIONS.contains e) = true ∧
    ALLOWED_EXTENSIONS.all (fun e => supported_extensions.contains e) = false := by
  constructor <;> decide

/-! ## Claim C8: determinism of the keyword strategy -/

/-- C8: `_classify_keywords` is deterministic — two invocations on the
same input text yield the same `{category, tags, confidence}` record.
(The embedding is a pure function of the text: the Python method reads
only its argument and the constant keyword tables.) -/
theorem classify_keywords_deterministic (t : List Char) (r1 r2 : KwResult)
    (h1 : r1 = classify_keywords t) (h2 : r2 = classify_keywords t) :
    r1 = r2 :=
  h1.trans h2.symm

/-- C8 witness: two concrete invocations agree. -/
theorem classify_keywords_deterministic_witness :
    classify_keywords "incident response pentest".data
      = classify_keywords "incident response pentest".data :=
  classify_keywords_deterministic "incident response pentest".data _ _ rfl rfl

/-! ## Claim C3: keyword classification rule -/

/-- The `category_scores` dict unfolded over the three fixed categories. -/
theorem categoryScores_eq (text : List Char) :
    categoryScores text =
      (if 0 < keywordScore text blueTeamKeywords
       then [("Blue Team", keywordScore text blueTeamKeywords)] else []) ++
      (if 0 < keywordScore text redTeamKeywords
       then [("Red Team", keywordScore text redTeamKeywords)] else []) ++
      (if 0 < keywordScore text threatIntelKeywords
       then [("Threat Intelligence", keywordScore text threatIntelKeywords)] else []) := by
  simp only [categoryScores, category_keywords, List.filterMap_cons, List.filterMap_nil]
  split_ifs <;> simp_all

/-- Python's first-maximum-wins `max` over the (positively scored part
of the) three categories equals the spec's tie-break-by-declaration-order
selection. -/
theorem pyMax_spec (sB sR sT : Nat) :
    pyMaxByVal ((if 0 < sB then [("Blue Team", sB)] else []) ++
                (if 0 < sR then [("Red Team", sR)] else []) ++
                (if 0 < sT then [("Threat Intelligence", sT)] else []))
    = (if sB = 0 ∧ sR = 0 ∧ sT = 0 then none
       else if sR ≤ sB ∧ sT ≤ sB then some "Blue Team"
       else if sT ≤ sR then some "Red Team"
       else some "Threat Intelligence") := by
  rcases Nat.eq_zero_or_pos sB with hB | hB <;>
  rcases Nat.eq_zero_or_pos sR with hR | hR <;>
  rcases Nat.eq_zero_or_pos sT with hT | hT <;>
  simp only [hB, hR, hT, Nat.lt_irrefl, if_true, if_false, ite_true, ite_false,
    List.nil_append, List.append_nil, List.cons_append, pyMaxByVal, pyMaxGo] <;>
  split_ifs <;> first | rfl | omega | (exfalso; simp_all)

/-- The score dict is empty exactly when all three scores are zero. -/
theorem scores_isEmpty (sB sR sT : Nat) :
    ((if 0 < sB then [("Blue Team", sB)] else []) ++
     (if 0 < sR then [("Red Team", sR)] else []) ++
     (if 0 < sT then [("Threat Intelligence", sT)] else [])).isEmpty
    = (decide (sB = 0) && decide (sR = 0) && decide (sT = 0)) := by
  rcases Nat.eq_zero_or_pos sB with hB | hB <;>
  rcases Nat.eq_zero_or_pos sR with hR | hR <;>
  rcases Nat.eq_zero_or_pos sT with hT | hT <;>
  simp_all <;> omega

/-- C3: for every input text, `_classify_keywords` returns the category
with the highest keyword-phrase substring count, ties resolved toward
the first-declared category (Blue Team before Red Team before Threat
Intelligence); when no category scores above zero the category is null
and the confidence is `"low"`, otherwise `"medium"`. -/
theorem classify_keywords_matches_spec (text : List Char) :
    (classify_keywords text).category = keywordSpecCategory text ∧
    (classify_keywords text).confidence = keywordSpecConfidence text := by
  constructor
  · show pyMaxByVal (categoryScores text) = keywordSpecCategory text
    rw [categoryScores_eq, pyMax_spec]
    rfl
  · show (if (categoryScores text).isEmpty then "low" else "medium")
        = keywordSpecConfidence text
    rw [categoryScores_eq, scores_isEmpty, keywordSpecConfidence]
    by_cases hB : keywordScore text blueTeamKeywords = 0 <;>
    by_cases hR : keywordScore text redTeamKeywords = 0 <;>
    by_cases hT : keywordScore text threatIntelKeywords = 0 <;>
    simp [hB, hR, hT]

/-! ## Claim C1: duplicate detection for file-backed payloads -/

/-- A second insert whose payload hash already occurs in the store is
answered with the null duplicate signal and leaves the store unchanged. -/
theorem add_resource_dup_none (b : AddArgs) (bs : Bytes)
    (fs2 : String → Option Bytes) (hashFn : Bytes → String) (now2 : Nat)
    (st1 : DBState) (hdb : b.file_data = some bs) (hbs : bs ≠ [])
    (hdup : hashConflict st1 (some (hashFn bs)) = true) :
    add_resource b fs2 hashFn none now2 st1 = .ok (none, st1) := by
  have hpb : resolvePayload b fs2 hashFn = (some (hashFn bs), some bs) := by
    simp [resolvePayload, hdb, hbs]
  by_cases h1 : b.title = none <;> by_cases h2 : b.resource_type = none <;>
  simp [add_resource, hpb, execInsert, h1, h2, hdup, SqlError.isIntegrity]

/-- C1 (amended to non-empty payloads): two `add_resource` calls with
the same non-empty payload bytes succeed the first time with a fresh id
and fail the second time with the null duplicate signal, and both calls
compute the same content hash. -/
theorem add_resource_dedup
    (a b : AddArgs) (bs : Bytes) (fs fs2 : String → Option Bytes)
    (hashFn : Bytes → String) (now now2 : Nat) (st : DBState)
    (hda : a.file_data = some bs) (hdb : b.file_data = some bs) (hbs : bs ≠ [])
    (hta : a.title ≠ none) (hra : a.resource_type ≠ none)
    (hfresh : ∀ r ∈ st.resources, r.file_hash ≠ some (hashFn bs)) :
    ∃ st1,
      add_resource a fs hashFn none now st = .ok (some st.nextId, st1) ∧
      add_resource b fs2 hashFn none now2 st1 = .ok (none, st1) ∧
      (resolvePayload a fs hashFn).1 = some (hashFn bs) ∧
      (resolvePayload b fs2 hashFn).1 = some (hashFn bs) := by
  have hpa : resolvePayload a fs hashFn = (some (hashFn bs), some bs) := by
    simp [resolvePayload, hda, hbs]
  have hpb : resolvePayload b fs2 hashFn = (some (hashFn bs), some bs) := by
    simp [resolvePayload, hdb, hbs]
  have hc : hashConflict st (some (hashFn bs)) = false := by
    simp only [hashConflict, List.any_eq_false]
    intro r hr
    simpa using hfresh r hr
  obtain ⟨st1, h1, hdup⟩ :
      ∃ st1, add_resource a fs hashFn none now st = .ok (some st.nextId, st1) ∧
        hashConflict st1 (some (hashFn bs)) = true := by
    simp only [add_resource, hpa, execInsert, hta, hra, hc,
      if_neg, if_false, ite_false]
    exact ⟨_, rfl, by simp [hashConflict, List.any_append]⟩
  exact ⟨st1, h1, add_resource_dup_none b bs fs2 hashFn now2 st1 hdb hbs hdup,
    by rw [hpa], by rw [hpb]⟩

/-- C1 witness: concrete double insert of payload `[7, 7, 7]` from a
fresh store — first call returns id 1, second returns the null signal,
hashes agree. -/
theorem add_resource_dedup_witness :
    ∃ st1,
      add_resource argsPayload fsNone hashRepr none 0 emptyDB
        = .ok (some emptyDB.nextId, st1) ∧
      add_resource argsPayload fsNone hashRepr none 1 st1 = .ok (none, st1) ∧
      (resolvePayload argsPayload fsNone hashRepr).1 = some (hashRepr [7, 7, 7]) ∧
      (resolvePayload argsPayload fsNone hashRepr).1 = some (hashRepr [7, 7, 7]) :=
  add_resource_dedup argsPayload argsPayload [7, 7, 7] fsNone fsNone hashRepr 0 1
    emptyDB rfl rfl (by decide) (by decide) (by decide)
    (fun r hr => absurd hr (List.not_mem_nil r))

/-- C1 counterexample: for the empty (`b''`) payload, Python's
`elif file_data:` is falsy, no hash is computed, and the second
identical create succeeds with a fresh id instead of returning the null
duplicate signal. -/
theorem add_resource_empty_payload_counterexample :
    argsEmptyPayload.file_data = some [] ∧
    addTwiceSecondId argsEmptyPayload = some 2 := by
  constructor <;> decide

/-! ## Claim C2: null result vs surfaced storage faults -/

/-- C2 (amended): with a healthy storage layer, `add_resource` returns a
null id exactly when the insert violates a constraint — a NOT NULL
violation as much as the duplicate hash; an environmental storage fault
is surfaced to the caller as an exception. -/
theorem add_resource_error_semantics (a : AddArgs) (fs : String → Option Bytes)
    (hashFn : Bytes → String) (now : Nat) (st : DBState) :
    (∀ m, add_resource a fs hashFn (some m) now st = .error (.operational m)) ∧
    (∀ res stx, add_resource a fs hashFn none now st = .ok (res, stx) →
      (res = none ↔ (a.title = none ∨ a.resource_type = none ∨
        hashConflict st (resolvePayload a fs hashFn).1 = true))) := by
  constructor
  · intro m
    simp [add_resource, execInsert, SqlError.isIntegrity]
  · intro res stx h
    by_cases h1 : a.title = none
    · simp only [add_resource, execInsert, h1, if_true, ite_true,
        SqlError.isIntegrity, if_false, ite_false, Except.ok.injEq,
        Prod.mk.injEq] at h
      simp [← h.1, h1]
    · by_cases h2 : a.resource_type = none
      · simp only [add_resource, execInsert, h1, h2, if_true, ite_true,
          SqlError.isIntegrity, if_false, ite_false, if_neg, Except.ok.injEq,
          Prod.mk.injEq] at h
        simp [← h.1, h1, h2]
      · by_cases h3 : hashConflict st (resolvePayload a fs hashFn).1 = true
        · simp only [add_resource, execInsert, h1, h2, h3, if_true, ite_true,
            SqlError.isIntegrity, if_false, ite_false, if_neg, Except.ok.injEq,
            Prod.mk.injEq] at h
          simp [← h.1, h3]
        · have h3f : hashConflict st (resolvePayload a fs hashFn).1 = false := by
            simpa using h3
          simp [add_resource, execInsert, h1, h2, h3f, SqlError.isIntegrity] at h
          simp [← h.1, h1, h2, h3f]

/-- C2 witness: a NULL-title insert on the fresh store yields the null
result, and the iff of the theorem holds for it. -/
theorem add_resource_error_semantics_witness :
    (none : Option Nat) = none ↔ (argsNullTitle.title = none ∨
      argsNullTitle.resource_type = none ∨
      hashConflict emptyDB (resolvePayload argsNullTitle fsNone hashRepr).1 = true) :=
  (add_resource_error_semantics argsNullTitle fsNone hashRepr 0 emptyDB).2
    none emptyDB (by decide)

/-- C2 counterexample: a NOT NULL violation on `title` — not a
duplicate-hash violation — is also converted to the null result instead
of being surfaced as an exception. -/
theorem add_resource_nonhash_integrity_null_counterexample :
    add_resource argsNullTitle fsNone hashRepr none 0 emptyDB = .ok (none, emptyDB) ∧
    hashConflict emptyDB (resolvePayload argsNullTitle fsNone hashRepr).1 = false := by
  constructor <;> decide

/-! ## Claim C9: unknown field names in update_resource -/

/-- C9: `update_resource` interpolates caller-supplied field names into
the SQL text, so any keyword argument whose name is not a `resources`
column makes the statement fail with an uncaught `OperationalError`
(neither `False` nor a row update), and the PUT route — which forwards
the request's JSON keys unchecked — turns that into a 500 response. -/
theorem update_unknown_column_raises
    (resource_id : Nat) (kwargs : List (String × JsonVal)) (now : Nat)
    (st : DBState) (k : String) (v : JsonVal)
    (hmem : (k, v) ∈ kwargs) (hk : k ≠ "id")
    (hcol : resourceColumns.contains k = false) :
    update_resource resource_id kwargs now st
      = .error (.operational "no such column") ∧
    put_route resource_id kwargs now st = (500, st) := by
  have hmemf : (k, v) ∈ kwargs.filter (fun kv => kv.1 != "id") := by
    refine List.mem_filter.mpr ⟨hmem, ?_⟩
    simp [hk]
  have hne : kwargs.filter (fun kv => kv.1 != "id") ≠ [] :=
    List.ne_nil_of_mem hmemf
  have hany : (kwargs.filter (fun kv => kv.1 != "id")).any
      (fun kv => !(resourceColumns.contains kv.1)) = true :=
    List.any_eq_true.mpr ⟨(k, v), hmemf, by simpa using hcol⟩
  have h1 : update_resource resource_id kwargs now st
      = .error (.operational "no such column") := by
    simp only [update_resource]
    rw [if_neg hne]
    simp only [hany, if_true, ite_true]
  exact ⟨h1, by simp [put_route, h1]⟩

/-- C9 witness: a concrete PUT carrying the key `nonexistent`. -/
theorem update_unknown_column_raises_witness :
    update_resource 1 [("nonexistent", .str "x")] 5 emptyDB
      = .error (.operational "no such column") ∧
    put_route 1 [("nonexistent", .str "x")] 5 emptyDB = (500, emptyDB) :=
  update_unknown_column_raises 1 [("nonexistent", .str "x")] 5 emptyDB
    "nonexistent" (.str "x") (by decide) (by decide) (by decide)

/-! ## Claim C5: search no longer returns a deleted resource -/

/-- Every row returned by `search_resources` is a stored resource (the
join keeps only rows of the `resources` table). -/
theorem mem_search_mem_resources (st : DBState) (matchQ : String → FtsRow → Bool)
    (query : String) (category : Option String) (limit : Nat) (r : ResourceRow)
    (h : r ∈ search_resources st matchQ query category limit) :
    r ∈ st.resources := by
  unfold search_resources at h
  have h1 := List.mem_of_mem_take h
  rcases category with _ | c
  · exact List.mem_of_mem_filter h1
  · simp only at h1
    split at h1
    · exact List.mem_of_mem_filter h1
    · exact List.mem_of_mem_filter (List.mem_of_mem_filter h1)

/-- C5: after a successful `delete_resource`, no search — in particular
one whose query previously returned the deleted resource — returns that
resource any more (the `resources_ad` trigger removes the FTS row, and
the join can only produce stored rows). -/
theorem delete_removes_from_search
    (st : DBState) (matchQ : String → FtsRow → Bool) (query : String)
    (category : Option String) (limit : Nat) (rid : Nat) (st2 : DBState)
    (hprev : rid ∈ (search_resources st matchQ query category limit).map (fun r => r.id))
    (hdel : delete_resource rid st = (true, st2)) :
    rid ∉ (search_resources st2 matchQ query category limit).map (fun r => r.id) := by
  intro hmem
  obtain ⟨r, hr, hrid⟩ := List.mem_map.mp hmem
  have hst2 : st2 = { st with
      resources := st.resources.filter (fun r => r.id != rid),
      fts := st.fts.filter (fun f => f.rowid != rid) } :=
    (congrArg Prod.snd hdel).symm
  have hr2 : r ∈ st.resources.filter (fun r => r.id != rid) := by
    have := mem_search_mem_resources st2 matchQ query category limit r hr
    rw [hst2] at this
    exact this
  have := List.of_mem_filter hr2
  simp [hrid] at this

/-- C5 witness: insert a resource titled `"a file"`, check the search
finds it, delete it, and apply the theorem. -/
theorem delete_removes_from_search_witness :
    1 ∉ (search_resources
          (delete_resource 1 (afterAdd argsPayload 0 emptyDB)).2
          matchTitle "a file" none 50).map (fun r => r.id) :=
  delete_removes_from_search (afterAdd argsPayload 0 emptyDB) matchTitle "a file"
    none 50 1 (delete_resource 1 (afterAdd argsPayload 0 emptyDB)).2
    (by decide) (by decide)

/-! ## Claim C4: create/get round-trip and update frame -/

/-- A resolved column name names that column. -/

theorem colOf_name (k : String) (c : ResCol) (h : colOf k = some c) :
    k = colName c := by
  have h2 := List.find?_some h
  have h3 : colName c = k := by simpa using h2
  exact h3.symm

/-- `find?` skips a prefix in which nothing matches. -/
theorem find?_append_right {α : Type} (p : α → Bool) (l1 l2 : List α)
    (h : l1.find? p = none) : (l1 ++ l2).find? p = l2.find? p := by
  induction l1 with
  | nil => rfl
  | cons a as ih =>
    cases hpa : p a with
    | true =>
      rw [List.find?_cons_of_pos _ hpa] at h
      exact absurd h (by simp)
    | false =>
      rw [List.find?_cons_of_neg _ (by simp [hpa])] at h
      rw [List.cons_append, List.find?_cons_of_neg _ (by simp [hpa])]
      exact ih h

/-- `find?` after the row-replacing map of an `UPDATE` returns the
updated row. -/
theorem find?_map_update (l : List ResourceRow) (i : Nat) (x r0 : ResourceRow)
    (hf : l.find? (fun r => r.id == i) = some r0) (hx : x.id = i) :
    (l.map (fun r => if r.id = i then x else r)).find? (fun r => r.id == i)
      = some x := by
  induction l with
  | nil => simp at hf
  | cons a as ih =>
    by_cases hpa : a.id = i
    · simp only [List.map_cons, if_pos hpa]
      rw [List.find?_cons_of_pos _ (by simp [hx])]
    · rw [List.find?_cons_of_neg _ (by simp [hpa])] at hf
      simp only [List.map_cons, if_neg hpa]
      rw [List.find?_cons_of_neg _ (by simp [hpa])]
      exact ih hf

/-- A projection untouched by every applied field survives the
assignment fold. -/
theorem foldl_setField_proj {α : Type} (proj : ResourceRow → α)
    (fields : List (String × JsonVal)) (r : ResourceRow)
    (h : ∀ r2 kv, kv ∈ fields → proj (setField r2 kv.1 kv.2) = proj r2) :
    proj (fields.foldl (fun acc kv => setField acc kv.1 kv.2) r) = proj r := by
  induction fields generalizing r with
  | nil => rfl
  | cons kv rest ih =>
    rw [List.foldl_cons]
    rw [ih _ (fun r2 kv2 hm => h r2 kv2 (List.mem_cons_of_mem kv hm))]
    exact h r kv (List.mem_cons_self kv rest)

/-- `SET` on any other column keeps `id`. -/
theorem setField_keeps_id (r : ResourceRow) (k : String) (v : JsonVal)
    (hk : k ≠ "id") : (setField r k v).id = r.id := by
  unfold setField
  cases hc : colOf k with
  | none => rfl
  | some c => cases c <;> first | rfl | exact absurd (colOf_name k _ hc) hk

theorem setField_keeps_title (r : ResourceRow) (k : String) (v : JsonVal)
    (hk : k ≠ "title") : (setField r k v).title = r.title := by
  unfold setField
  cases hc : colOf k with
  | none => rfl
  | some c => cases c <;> first | rfl | exact absurd (colOf_name k _ hc) hk

theorem setField_keeps_description (r : ResourceRow) (k : String) (v : JsonVal)
    (hk : k ≠ "description") : (setField r k v).description = r.description := by
  unfold setField
  cases hc : colOf k with
  | none => rfl
  | some c => cases c <;> first | rfl | exact absurd (colOf_name k _ hc) hk

theorem setField_keeps_file_path (r : ResourceRow) (k : String) (v : JsonVal)
    (hk : k ≠ "file_path") : (setField r k v).file_path = r.file_path := by
  unfold setField
  cases hc : colOf k with
  | none => rfl
  | some c => cases c <;> first | rfl | exact absurd (colOf_name k _ hc) hk

theorem setField_keeps_file_type (r : ResourceRow) (k : String) (v : JsonVal)
    (hk : k ≠ "file_type") : (setField r k v).file_type = r.file_type := by
  unfold setField
  cases hc : colOf k with
  | none => rfl
  | some c => cases c <;> first | rfl | exact absurd (colOf_name k _ hc) hk

theorem setField_keeps_file_size (r : ResourceRow) (k : String) (v : JsonVal)
    (hk : k ≠ "file_size") : (setField r k v).file_size = r.file_size := by
  unfold setField
  cases hc : colOf k with
  | none => rfl
  | some c => cases c <;> first | rfl | exact absurd (colOf_name k _ hc) hk

theorem setField_keeps_file_hash (r : ResourceRow) (k : String) (v : JsonVal)
    (hk : k ≠ "file_hash") : (setField r k v).file_hash = r.file_hash := by
  unfold setField
  cases hc : colOf k with
  | none => rfl
  | some c => cases c <;> first | rfl | exact absurd (colOf_name k _ hc) hk

theorem setField_keeps_category (r : ResourceRow) (k : String) (v : JsonVal)
    (hk : k ≠ "category") : (setField r k v).category = r.category := by
  unfold setField
  cases hc : colOf k with
  | none => rfl
  | some c => cases c <;> first | rfl | exact absurd (colOf_name k _ hc) hk

theorem setField_keeps_tags (r : ResourceRow) (k : String) (v : JsonVal)
    (hk : k ≠ "tags") : (setField r k v).tags = r.tags := by
  unfold setField
  cases hc : colOf k with
  | none => rfl
  | some c => cases c <;> first | rfl | exact absurd (colOf_name k _ hc) hk

theorem setField_keeps_url (r : ResourceRow) (k : String) (v : JsonVal)
    (hk : k ≠ "url") : (setField r k v).url = r.url := by
  unfold setField
  cases hc : colOf k with
  | none => rfl
  | some c => cases c <;> first | rfl | exact absurd (colOf_name k _ hc) hk

theorem setField_keeps_resource_type (r : ResourceRow) (k : String) (v : JsonVal)
    (hk : k ≠ "resource_type") : (setField r k v).resource_type = r.resource_type := by
  unfold setField
  cases hc : colOf k with
  | none => rfl
  | some c => cases c <;> first | rfl | exact absurd (colOf_name k _ hc) hk

theorem setField_keeps_thumbnail_path (r : ResourceRow) (k : String) (v : JsonVal)
    (hk : k ≠ "thumbnail_path") : (setField r k v).thumbnail_path = r.thumbnail_path := by
  unfold setField
  cases hc : colOf k with
  | none => rfl
  | some c => cases c <;> first | rfl | exact absurd (colOf_name k _ hc) hk

theorem setField_keeps_classifier_used (r : ResourceRow) (k : String) (v : JsonVal)
    (hk : k ≠ "classifier_used") : (setField r k v).classifier_used = r.classifier_used := by
  unfold setField
  cases hc : colOf k with
  | none => rfl
  | some c => cases c <;> first | rfl | exact absurd (colOf_name k _ hc) hk

theorem setField_keeps_classification_confidence (r : ResourceRow) (k : String) (v : JsonVal)
    (hk : k ≠ "classification_confidence") : (setField r k v).classification_confidence = r.classification_confidence := by
  unfold setField
  cases hc : colOf k with
  | none => rfl
  | some c => cases c <;> first | rfl | exact absurd (colOf_name k _ hc) hk

theorem setField_keeps_created_at (r : ResourceRow) (k : String) (v : JsonVal)
    (hk : k ≠ "created_at") : (setField r k v).created_at = r.created_at := by
  unfold setField
  cases hc : colOf k with
  | none => rfl
  | some c => cases c <;> first | rfl | exact absurd (colOf_name k _ hc) hk

/-- Create round-trip: after a successful `add_resource`, `get_resource`
returns exactly the supplied fields with both timestamps equal to the
insertion instant. -/
theorem create_roundtrip_aux
    (a : AddArgs) (fs : String → Option Bytes) (hashFn : Bytes → String)
    (now : Nat) (st st1 : DBState) (rid : Nat)
    (hwf : st.wfB = true)
    (hadd : add_resource a fs hashFn none now st = .ok (some rid, st1)) :
    get_resource st1 rid false = some
      { id := rid, title := a.title, description := a.description,
        file_path := a.file_path, file_data := none,
        file_type := a.file_type, file_size := a.file_size,
        file_hash := (resolvePayload a fs hashFn).1, category := a.category,
        tags := tagsToText a.tags, url := a.url, resource_type := a.resource_type,
        thumbnail_path := a.thumbnail_path, classifier_used := a.classifier_used,
        classification_confidence := a.classification_confidence,
        created_at := now, updated_at := now } := by
  by_cases h1 : a.title = none
  · simp [add_resource, execInsert, h1, SqlError.isIntegrity] at hadd
  by_cases h2 : a.resource_type = none
  · simp [add_resource, execInsert, h1, h2, SqlError.isIntegrity] at hadd
  by_cases h3 : hashConflict st (resolvePayload a fs hashFn).1 = true
  · simp [add_resource, execInsert, h1, h2, h3, SqlError.isIntegrity] at hadd
  have h3f : hashConflict st (resolvePayload a fs hashFn).1 = false := by
    simpa using h3
  simp only [add_resource, execInsert, h1, h2, h3f, if_neg, if_false, ite_false,
    Bool.false_eq_true, Except.ok.injEq, Prod.mk.injEq, Option.some.injEq] at hadd
  obtain ⟨hid, hst1⟩ := hadd
  subst hid
  subst hst1
  have hnone : st.resources.find? (fun r => r.id == st.nextId) = none := by
    rw [List.find?_eq_none]
    intro r hr
    have hlt : r.id < st.nextId := by
      have hall := (List.all_eq_true.mp hwf) r hr
      simpa using hall
    simp [Nat.ne_of_lt hlt]
  unfold get_resource
  rw [find?_append_right _ _ _ hnone]
  rw [List.find?_cons_of_pos _ (by simp)]
  rfl

/-- A key absent from the update's JSON is not among the applied fields. -/
theorem not_hasKey_filter (kwargs : List (String × JsonVal)) (f : String)
    (h : hasKey kwargs f = false) (kv : String × JsonVal)
    (hm : kv ∈ kwargs.filter (fun kv => kv.1 != "id")) : kv.1 ≠ f := by
  intro he
  have htrue : hasKey kwargs f = true := by
    unfold hasKey
    exact List.any_eq_true.mpr ⟨kv, List.mem_of_mem_filter hm, by simp [he]⟩
  rw [h] at htrue
  simp at htrue

/-- Applied fields never carry the key `id` (it is filtered out). -/
theorem mem_filter_ne_id (kwargs : List (String × JsonVal))
    (kv : String × JsonVal)
    (hm : kv ∈ kwargs.filter (fun kv => kv.1 != "id")) : kv.1 ≠ "id" := by
  have := List.of_mem_filter hm
  simpa using this

/-- Update frame: a successful `update_resource` refreshes `updated_at`
to the update instant and leaves every column not named in the call
unchanged. -/
theorem update_frame_aux
    (rid : Nat) (kwargs : List (String × JsonVal)) (nowU : Nat)
    (st1 st2 : DBState) (r1 : ResourceRow)
    (hupd : update_resource rid kwargs nowU st1 = .ok (true, st2))
    (hr1 : get_resource st1 rid false = some r1) :
    ∃ r2, get_resource st2 rid false = some r2 ∧
      r2.updated_at = nowU ∧
      (hasKey kwargs "title" = false → r2.title = r1.title) ∧
      (hasKey kwargs "description" = false → r2.description = r1.description) ∧
      (hasKey kwargs "file_path" = false → r2.file_path = r1.file_path) ∧
      (hasKey kwargs "file_type" = false → r2.file_type = r1.file_type) ∧
      (hasKey kwargs "file_size" = false → r2.file_size = r1.file_size) ∧
      (hasKey kwargs "file_hash" = false → r2.file_hash = r1.file_hash) ∧
      (hasKey kwargs "category" = false → r2.category = r1.category) ∧
      (hasKey kwargs "tags" = false → r2.tags = r1.tags) ∧
      (hasKey kwargs "url" = false → r2.url = r1.url) ∧
      (hasKey kwargs "resource_type" = false → r2.resource_type = r1.resource_type) ∧
      (hasKey kwargs "thumbnail_path" = false → r2.thumbnail_path = r1.thumbnail_path) ∧
      (hasKey kwargs "classifier_used" = false → r2.classifier_used = r1.classifier_used) ∧
      (hasKey kwargs "classification_confidence" = false → r2.classification_confidence = r1.classification_confidence) ∧
      (hasKey kwargs "created_at" = false → r2.created_at = r1.created_at) := by
  unfold get_resource at hr1
  cases hf : st1.resources.find? (fun r => r.id == rid) with
  | none => rw [hf] at hr1; exact absurd hr1 (by simp)
  | some r0 =>
  rw [hf] at hr1
  have hr1e : r1 = { r0 with file_data := none } := by
    have h0 : some ({ r0 with file_data := none } : ResourceRow) = some r1 := by
      simpa using hr1
    simpa using h0.symm
  have hr0id : r0.id = rid := by
    have := List.find?_some hf
    simpa using this
  unfold update_resource at hupd
  by_cases hfe : kwargs.filter (fun kv => kv.1 != "id") = []
  · rw [if_pos hfe] at hupd
    exact absurd hupd (by simp)
  rw [if_neg hfe] at hupd
  by_cases hbad : (kwargs.filter (fun kv => kv.1 != "id")).any
      (fun kv => !(resourceColumns.contains kv.1)) = true
  · rw [if_pos hbad] at hupd
    exact absurd hupd (by simp)
  rw [if_neg hbad, hf] at hupd
  simp only [] at hupd
  by_cases ht : (updatedRow (kwargs.filter (fun kv => kv.1 != "id")) r0 nowU).title = none
  · rw [if_pos ht] at hupd
    exact absurd hupd (by simp)
  rw [if_neg ht] at hupd
  by_cases hrt : (updatedRow (kwargs.filter (fun kv => kv.1 != "id")) r0 nowU).resource_type = none
  · rw [if_pos hrt] at hupd
    exact absurd hupd (by simp)
  rw [if_neg hrt] at hupd
  by_cases hu : (match (updatedRow (kwargs.filter (fun kv => kv.1 != "id")) r0 nowU).file_hash with
      | some hv => st1.resources.any
          (fun r => r.id != rid && r.file_hash == some hv)
      | none => false) = true
  · rw [if_pos hu] at hupd
    exact absurd hupd (by simp)
  rw [if_neg hu] at hupd
  have hst2 : st2 = { st1 with
      resources := st1.resources.map (fun r =>
        if r.id = rid then updatedRow (kwargs.filter (fun kv => kv.1 != "id")) r0 nowU else r),
      fts := st1.fts.map (fun f =>
        if f.rowid = rid
        then ftsProjection (updatedRow (kwargs.filter (fun kv => kv.1 != "id")) r0 nowU)
        else f) } := by
    have h5 := hupd
    simp only [Except.ok.injEq, Prod.mk.injEq] at h5
    exact h5.2.symm
  have hid1u : (updatedRow (kwargs.filter (fun kv => kv.1 != "id")) r0 nowU).id = rid := by
    unfold updatedRow
    show ((kwargs.filter (fun kv => kv.1 != "id")).foldl
      (fun acc kv => setField acc kv.1 kv.2) r0).id = rid
    rw [foldl_setField_proj (fun r => r.id) _ r0
      (fun r2 kv hm => setField_keeps_id r2 kv.1 kv.2 (mem_filter_ne_id kwargs kv hm))]
    exact hr0id
  have hfind2 := find?_map_update st1.resources rid
    (updatedRow (kwargs.filter (fun kv => kv.1 != "id")) r0 nowU) r0 hf hid1u
  subst hst2
  subst hr1e
  refine ⟨{ updatedRow (kwargs.filter (fun kv => kv.1 != "id")) r0 nowU with
      file_data := none }, ?_, rfl, ?_, ?_, ?_, ?_, ?_, ?_, ?_, ?_, ?_, ?_, ?_, ?_, ?_, ?_⟩
  · unfold get_resource
    rw [hfind2]
    rfl
  all_goals intro hK
  · show (updatedRow (kwargs.filter (fun kv => kv.1 != "id")) r0 nowU).title = r0.title
    unfold updatedRow
    exact foldl_setField_proj (fun r => r.title) _ r0
      (fun r2 kv hm => setField_keeps_title r2 kv.1 kv.2 (not_hasKey_filter kwargs _ hK kv hm))
  · show (updatedRow (kwargs.filter (fun kv => kv.1 != "id")) r0 nowU).description = r0.description
    unfold updatedRow
    exact foldl_setField_proj (fun r => r.description) _ r0
      (fun r2 kv hm => setField_keeps_description r2 kv.1 kv.2 (not_hasKey_filter kwargs _ hK kv hm))
  · show (updatedRow (kwargs.filter (fun kv => kv.1 != "id")) r0 nowU).file_path = r0.file_path
    unfold updatedRow
    exact foldl_setField_proj (fun r => r.file_path) _ r0
      (fun r2 kv hm => setField_keeps_file_path r2 kv.1 kv.2 (not_hasKey_filter kwargs _ hK kv hm))
  · show (updatedRow (kwargs.filter (fun kv => kv.1 != "id")) r0 nowU).file_type = r0.file_type
    unfold updatedRow
    exact foldl_setField_proj (fun r => r.file_type) _ r0
      (fun r2 kv hm => setField_keeps_file_type r2 kv.1 kv.2 (not_hasKey_filter kwargs _ hK kv hm))
  · show (updatedRow (kwargs.filter (fun kv => kv.1 != "id")) r0 nowU).file_size = r0.file_size
    unfold updatedRow
    exact foldl_setField_proj (fun r => r.file_size) _ r0
      (fun r2 kv hm => setField_keeps_file_size r2 kv.1 kv.2 (not_hasKey_filter kwargs _ hK kv hm))
  · show (updatedRow (kwargs.filter (fun kv => kv.1 != "id")) r0 nowU).file_hash = r0.file_hash
    unfold updatedRow
    exact foldl_setField_proj (fun r => r.file_hash) _ r0
      (fun r2 kv hm => setField_keeps_file_hash r2 kv.1 kv.2 (not_hasKey_filter kwargs _ hK kv hm))
  · show (updatedRow (kwargs.filter (fun kv => kv.1 != "id")) r0 nowU).category = r0.category
    unfold updatedRow
    exact foldl_setField_proj (fun r => r.category) _ r0
      (fun r2 kv hm => setField_keeps_category r2 kv.1 kv.2 (not_hasKey_filter kwargs _ hK kv hm))
  · show (updatedRow (kwargs.filter (fun kv => kv.1 != "id")) r0 nowU).tags = r0.tags
    unfold updatedRow
    exact foldl_setField_proj (fun r => r.tags) _ r0
      (fun r2 kv hm => setField_keeps_tags r2 kv.1 kv.2 (not_hasKey_filter kwargs _ hK kv hm))
  · show (updatedRow (kwargs.filter (fun kv => kv.1 != "id")) r0 nowU).url = r0.url
    unfold updatedRow
    exact foldl_setField_proj (fun r => r.url) _ r0
      (fun r2 kv hm => setField_keeps_url r2 kv.1 kv.2 (not_hasKey_filter kwargs _ hK kv hm))
  · show (updatedRow (kwargs.filter (fun kv => kv.1 != "id")) r0 nowU).resource_type = r0.resource_type
    unfold updatedRow
    exact foldl_setField_proj (fun r => r.resource_type) _ r0
      (fun r2 kv hm => setField_keeps_resource_type r2 kv.1 kv.2 (not_hasKey_filter kwargs _ hK kv hm))
  · show (updatedRow (kwargs.filter (fun kv => kv.1 != "id")) r0 nowU).thumbnail_path = r0.thumbnail_path
    unfold updatedRow
    exact foldl_setField_proj (fun r => r.thumbnail_path) _ r0
      (fun r2 kv hm => setField_keeps_thumbnail_path r2 kv.1 kv.2 (not_hasKey_filter kwargs _ hK kv hm))
  · show (updatedRow (kwargs.filter (fun kv => kv.1 != "id")) r0 nowU).classifier_used = r0.classifier_used
    unfold updatedRow
    exact foldl_setField_proj (fun r => r.classifier_used) _ r0
      (fun r2 kv hm => setField_keeps_classifier_used r2 kv.1 kv.2 (not_hasKey_filter kwargs _ hK kv hm))
  · show (updatedRow (kwargs.filter (fun kv => kv.1 != "id")) r0 nowU).classification_confidence = r0.classification_confidence
    unfold updatedRow
    exact foldl_setField_proj (fun r => r.classification_confidence) _ r0
      (fun r2 kv hm => setField_keeps_classification_confidence r2 kv.1 kv.2 (not_hasKey_filter kwargs _ hK kv hm))
  · show (updatedRow (kwargs.filter (fun kv => kv.1 != "id")) r0 nowU).created_at = r0.created_at
    unfold updatedRow
    exact foldl_setField_proj (fun r => r.created_at) _ r0
      (fun r2 kv hm => setField_keeps_created_at r2 kv.1 kv.2 (not_hasKey_filter kwargs _ hK kv hm))

/-- C4: after create, `get(id)` returns metadata equal to what was
supplied with `updated_at = created_at`; after an update at a strictly
later clock instant, `updated_at` strictly increases past its previous
value, and every field not supplied to the update is unchanged. -/
theorem create_get_update_roundtrip
    (a : AddArgs) (fs : String → Option Bytes) (hashFn : Bytes → String)
    (now nowU : Nat) (st st1 st2 : DBState) (rid : Nat)
    (kwargs : List (String × JsonVal))
    (hwf : st.wfB = true)
    (hadd : add_resource a fs hashFn none now st = .ok (some rid, st1))
    (hupd : update_resource rid kwargs nowU st1 = .ok (true, st2)) :
    ∃ r1 r2,
      get_resource st1 rid false = some r1 ∧
      get_resource st2 rid false = some r2 ∧
      r1.title = a.title ∧ r1.description = a.description ∧
      r1.file_path = a.file_path ∧ r1.file_type = a.file_type ∧
      r1.file_size = a.file_size ∧ r1.category = a.category ∧
      r1.tags = tagsToText a.tags ∧ r1.url = a.url ∧
      r1.resource_type = a.resource_type ∧
      r1.thumbnail_path = a.thumbnail_path ∧
      r1.classifier_used = a.classifier_used ∧
      r1.classification_confidence = a.classification_confidence ∧
      r1.created_at = now ∧ r1.updated_at = now ∧
      r2.updated_at = nowU ∧
      (r1.updated_at < nowU → r1.updated_at < r2.updated_at) ∧
      (hasKey kwargs "title" = false → r2.title = r1.title) ∧
      (hasKey kwargs "description" = false → r2.description = r1.description) ∧
      (hasKey kwargs "file_path" = false → r2.file_path = r1.file_path) ∧
      (hasKey kwargs "file_type" = false → r2.file_type = r1.file_type) ∧
      (hasKey kwargs "file_size" = false → r2.file_size = r1.file_size) ∧
      (hasKey kwargs "file_hash" = false → r2.file_hash = r1.file_hash) ∧
      (hasKey kwargs "category" = false → r2.category = r1.category) ∧
      (hasKey kwargs "tags" = false → r2.tags = r1.tags) ∧
      (hasKey kwargs "url" = false → r2.url = r1.url) ∧
      (hasKey kwargs "resource_type" = false → r2.resource_type = r1.resource_type) ∧
      (hasKey kwargs "thumbnail_path" = false → r2.thumbnail_path = r1.thumbnail_path) ∧
      (hasKey kwargs "classifier_used" = false → r2.classifier_used = r1.classifier_used) ∧
      (hasKey kwargs "classification_confidence" = false → r2.classification_confidence = r1.classification_confidence) ∧
      (hasKey kwargs "created_at" = false → r2.created_at = r1.created_at) := by
  have hA := create_roundtrip_aux a fs hashFn now st st1 rid hwf hadd
  obtain ⟨r2, hg2, hu2, hC0, hC1, hC2, hC3, hC4, hC5, hC6, hC7, hC8, hC9, hC10, hC11, hC12, hC13⟩ :=
    update_frame_aux rid kwargs nowU st1 st2 _ hupd hA
  exact ⟨_, r2, hA, hg2, rfl, rfl, rfl, rfl, rfl, rfl, rfl, rfl, rfl, rfl, rfl,
    rfl, rfl, rfl, hu2, (fun h => by rw [hu2]; exact h), hC0, hC1, hC2, hC3, hC4, hC5, hC6, hC7, hC8, hC9, hC10, hC11, hC12, hC13⟩

/-- C4 witness: concrete create at instant 0 followed by a
description-only update at instant 7. -/
theorem create_get_update_roundtrip_witness :
    ∃ r1 r2,
      get_resource (afterAdd argsPayload 0 emptyDB) 1 false = some r1 ∧
      get_resource (afterUpdate 1 [("description", .str "new")] 7
        (afterAdd argsPayload 0 emptyDB)) 1 false = some r2 ∧
      r1.title = argsPayload.title ∧ r1.description = argsPayload.description ∧
      r1.file_path = argsPayload.file_path ∧ r1.file_type = argsPayload.file_type ∧
      r1.file_size = argsPayload.file_size ∧ r1.category = argsPayload.category ∧
      r1.tags = tagsToText argsPayload.tags ∧ r1.url = argsPayload.url ∧
      r1.resource_type = argsPayload.resource_type ∧
      r1.thumbnail_path = argsPayload.thumbnail_path ∧
      r1.classifier_used = argsPayload.classifier_used ∧
      r1.classification_confidence = argsPayload.classification_confidence ∧
      r1.created_at = 0 ∧ r1.updated_at = 0 ∧
      r2.updated_at = 7 ∧
      (r1.updated_at < 7 → r1.updated_at < r2.updated_at) ∧
      (hasKey [("description", .str "new")] "title" = false → r2.title = r1.title) ∧
      (hasKey [("description", .str "new")] "description" = false → r2.description = r1.description) ∧
      (hasKey [("description", .str "new")] "file_path" = false → r2.file_path = r1.file_path) ∧
      (hasKey [("description", .str "new")] "file_type" = false → r2.file_type = r1.file_type) ∧
      (hasKey [("description", .str "new")] "file_size" = false → r2.file_size = r1.file_size) ∧
      (hasKey [("description", .str "new")] "file_hash" = false → r2.file_hash = r1.file_hash) ∧
      (hasKey [("description", .str "new")] "category" = false → r2.category = r1.category) ∧
      (hasKey [("description", .str "new")] "tags" = false → r2.tags = r1.tags) ∧
      (hasKey [("description", .str "new")] "url" = false → r2.url = r1.url) ∧
      (hasKey [("description", .str "new")] "resource_type" = false → r2.resource_type = r1.resource_type) ∧
      (hasKey [("description", .str "new")] "thumbnail_path" = false → r2.thumbnail_path = r1.thumbnail_path) ∧
      (hasKey [("description", .str "new")] "classifier_used" = false → r2.classifier_used = r1.classifier_used) ∧
      (hasKey [("description", .str "new")] "classification_confidence" = false →
        r2.classification_confidence = r1.classification_confidence) ∧
      (hasKey [("description", .str "new")] "created_at" = false → r2.created_at = r1.created_at) :=
  create_get_update_roundtrip argsPayload fsNone hashRepr 0 7 emptyDB
    (afterAdd argsPayload 0 emptyDB)
    (afterUpdate 1 [("description", .str "new")] 7 (afterAdd argsPayload 0 emptyDB))
    1 [("description", .str "new")] (by decide) (by decide) (by decide)

/-! ## Claim C6: sanitize_filename behaviour -/

/-- Characters surviving the substitution are in the allowed class. -/

theorem substituteName_allowed (s : List Char) :
    ∀ c ∈ substituteName s, isAllowedFilenameChar c = true := by
  intro c hc
  obtain ⟨x, _, hx⟩ := List.mem_map.mp hc
  by_cases hax : isAllowedFilenameChar x = true
  · rw [if_pos hax] at hx
    rw [hx] at hax
    exact hax
  · rw [if_neg hax] at hx
    rw [← hx]
    decide

/-- `neutralizeLeadingDot` either leaves a non-dot-initial name alone or
replaces the leading dot by an underscore. -/
theorem neutralize_cases (l : List Char) :
    ((∀ rest, l ≠ '.' :: rest) ∧ neutralizeLeadingDot l = l) ∨
      ∃ rest, l = '.' :: rest ∧ neutralizeLeadingDot l = '_' :: rest := by
  unfold neutralizeLeadingDot
  split
  · exact Or.inr ⟨_, rfl, rfl⟩
  · rename_i h
    exact Or.inl ⟨fun rest hh => h rest hh, rfl⟩

/-- Every character of the cleaned name is in `[A-Za-z0-9._-]`. -/
theorem cleanedName_allowed (s : List Char) :
    ∀ c ∈ cleanedName s, isAllowedFilenameChar c = true := by
  intro c hc
  unfold cleanedName at hc
  rcases neutralize_cases (substituteName s) with ⟨_, heq⟩ | ⟨rest, hl, heq⟩
  · rw [heq] at hc
    exact substituteName_allowed s c hc
  · rw [heq] at hc
    rcases List.mem_cons.mp hc with hcu | hcr
    · rw [hcu]; decide
    · exact substituteName_allowed s c (by rw [hl]; exact List.mem_cons_of_mem _ hcr)

/-- The cleaned name never starts with a dot. -/
theorem cleanedName_head_ne_dot (s : List Char) :
    (cleanedName s).head? ≠ some '.' := by
  unfold cleanedName
  rcases neutralize_cases (substituteName s) with ⟨hno, heq⟩ | ⟨rest, _, heq⟩
  · rw [heq]
    intro hh
    cases hsub : substituteName s with
    | nil => rw [hsub] at hh; simp at hh
    | cons a t =>
      rw [hsub] at hh
      simp at hh
      rw [hsub] at hno
      exact hno t (by rw [hh])
  · rw [heq]
    simp

/-- The first remaining element after `dropWhile` fails the predicate. -/
theorem dropWhile_head_not {p : Char → Bool} {l : List Char} {c : Char}
    {t : List Char} (h : l.dropWhile p = c :: t) : p c = false := by
  induction l with
  | nil => simp at h
  | cons a as ih =>
    rw [List.dropWhile_cons] at h
    split at h
    · exact ih h
    · rename_i hpa
      injection h with h1 _
      rw [← h1]
      simpa using hpa

/-- `rsplit('.', 1)` decomposition: a name containing a dot is its stem,
the last dot, and its extension. -/
theorem rsplitDot_decomp (n : List Char) (h : '.' ∈ n) :
    n = (rsplitDot n).1 ++ '.' :: (rsplitDot n).2 := by
  unfold rsplitDot
  simp only
  cases hd : n.reverse.dropWhile (fun c => c != '.') with
  | nil =>
    exfalso
    have htw : n.reverse.takeWhile (fun c => c != '.') = n.reverse := by
      have h2 := List.takeWhile_append_dropWhile (fun c => c != '.') n.reverse
      rw [hd] at h2
      simpa using h2
    have hmem : ('.' : Char) ∈ n.reverse := List.mem_reverse.mpr h
    rw [← htw] at hmem
    have := List.mem_takeWhile_imp hmem
    simp at this
  | cons d t =>
    have hdn : d = '.' := by
      have := dropWhile_head_not hd
      simpa using this
    subst hdn
    have hsplit : n.reverse.takeWhile (fun c => c != '.') ++ '.' :: t
        = n.reverse :=
      hd ▸ List.takeWhile_append_dropWhile (fun c => c != '.') n.reverse
    refine List.reverse_injective ?_
    conv_lhs => rw [← hsplit]
    simp

/-- Truncation introduces no character beyond those of the name and the
dot it reinserts. -/
theorem truncateFilename_subset (n : List Char) :
    ∀ c ∈ truncateFilename n, c ∈ n ∨ c = '.' := by
  intro c hc
  unfold truncateFilename at hc
  by_cases hdot : n.contains '.' = true
  · rw [if_pos hdot] at hc
    have hmem : ('.' : Char) ∈ n := by simpa using hdot
    have hdec := rsplitDot_decomp n hmem
    rcases List.mem_append.mp hc with h1 | h2
    · left
      rw [hdec]
      exact List.mem_append_left _ (List.take_subset _ _ h1)
    · split at h2
      · simp at h2
      · rcases List.mem_cons.mp h2 with hceq | hcr
        · exact Or.inr hceq
        · left
          rw [hdec]
          exact List.mem_append_right _ (List.mem_cons_of_mem _ hcr)
  · rw [if_neg hdot] at hc
    exact Or.inl (List.take_subset _ _ hc)

/-- Truncating a name longer than 255 that does not start with a dot
yields a non-empty name with the same first character. -/
theorem truncateFilename_props (n : List Char)
    (hlen : 255 < n.length) (hh : n.head? ≠ some '.') :
    truncateFilename n ≠ [] ∧ (truncateFilename n).head? = n.head? := by
  unfold truncateFilename
  by_cases hdot : n.contains '.' = true
  · rw [if_pos hdot]
    have hmem : ('.' : Char) ∈ n := by simpa using hdot
    have hdec := rsplitDot_decomp n hmem
    rcases hsp : rsplitDot n with ⟨stem, ext⟩
    rw [hsp] at hdec
    simp only at hdec ⊢
    cases hstem : stem with
    | nil =>
      exfalso
      rw [hstem] at hdec
      apply hh
      rw [hdec]
      rfl
    | cons s0 st =>
      constructor
      · simp
      · rw [hdec, hstem]
        rfl
  · rw [if_neg hdot]
    cases hn : n with
    | nil => rw [hn] at hlen; simp at hlen
    | cons a t =>
      constructor
      · simp
      · rfl

/-- C6 (amended): `sanitize_filename` strips directory components,
replaces every character outside `[A-Za-z0-9._-]` with `_`, neutralizes
a leading dot, fails exactly when the input or the cleaned name is
empty (or the cleaned name is `"."`), and, when the cleaned name
exceeds 255 characters, truncates its stem to 250 characters while
keeping the extension — so the result is the cleaned name itself or its
truncation, never empty, never `"."`, never dot-initial, and made only
of allowed characters.  (The original 255-character bound fails for
long extensions; see the counterexample.) -/
theorem sanitize_filename_spec (s : List Char) :
    ((∃ e, sanitize_filename s = .error e) ↔
      (s = [] ∨ cleanedName s = [] ∨ cleanedName s = ['.'])) ∧
    (∀ r, sanitize_filename s = .ok r →
      (∀ c ∈ r, isAllowedFilenameChar c = true) ∧
      r ≠ [] ∧ r ≠ ['.'] ∧ r.head? ≠ some '.' ∧
      ((cleanedName s).length ≤ 255 → r = cleanedName s) ∧
      (255 < (cleanedName s).length → r = truncateFilename (cleanedName s))) := by
  constructor
  · constructor
    · rintro ⟨e, he⟩
      unfold sanitize_filename at he
      by_cases h0 : s = []
      · exact Or.inl h0
      rw [if_neg h0] at he
      by_cases h1 : cleanedName s = [] ∨ cleanedName s = ['.']
      · exact Or.inr h1
      rw [if_neg h1] at he
      split at he <;> simp at he
    · intro h
      unfold sanitize_filename
      by_cases h0 : s = []
      · rw [if_pos h0]
        exact ⟨_, rfl⟩
      rcases h with h0x | h1
      · exact absurd h0x h0
      rw [if_neg h0, if_pos h1]
      exact ⟨_, rfl⟩
  · intro r hr
    unfold sanitize_filename at hr
    by_cases h0 : s = []
    · rw [if_pos h0] at hr
      simp at hr
    rw [if_neg h0] at hr
    by_cases h1 : cleanedName s = [] ∨ cleanedName s = ['.']
    · rw [if_pos h1] at hr
      simp at hr
    rw [if_neg h1] at hr
    have hne : cleanedName s ≠ [] := fun h => h1 (Or.inl h)
    have hnd : cleanedName s ≠ ['.'] := fun h => h1 (Or.inr h)
    by_cases h2 : 255 < (cleanedName s).length
    · rw [if_pos h2] at hr
      have hre : r = truncateFilename (cleanedName s) := by
        simpa using hr.symm
      subst hre
      have hhead := cleanedName_head_ne_dot s
      obtain ⟨hne2, hh2⟩ := truncateFilename_props (cleanedName s) h2 hhead
      refine ⟨?_, hne2, ?_, ?_, ?_, fun _ => rfl⟩
      · intro c hc
        rcases truncateFilename_subset _ c hc with hcn | hceq
        · exact cleanedName_allowed s c hcn
        · rw [hceq]
          decide
      · intro hq
        rw [hq] at hh2
        exact hhead hh2.symm
      · rw [hh2]
        exact hhead
      · intro hle
        omega
    · rw [if_neg h2] at hr
      have hre : r = cleanedName s := by
        simpa using hr.symm
      subst hre
      exact ⟨cleanedName_allowed s, hne, hnd, cleanedName_head_ne_dot s,
        fun _ => rfl, fun hgt => absurd hgt h2⟩

/-- C6 witness: `"a b?.txt"` cleans to `"a_b_.txt"`, which is non-empty,
not `"."` and not dot-initial. -/
theorem sanitize_filename_spec_witness :
    "a_b_.txt".data ≠ [] ∧ "a_b_.txt".data ≠ ['.'] ∧
    "a_b_.txt".data.head? ≠ some '.' :=
  let h := (sanitize_filename_spec ("a b?.txt".data)).2 "a_b_.txt".data (by decide)
  ⟨h.2.1, h.2.2.1, h.2.2.2.1⟩

/-- C6 counterexample: a name with a 260-character extension sanitizes
to 262 characters — more than the claimed 255-character bound — because
truncation shortens only the stem and keeps the extension whole. -/
theorem sanitize_filename_length_counterexample :
    (sanitize_filename longExtFilename).toOption.map List.length = some 262 ∧
    255 < 262 := by
  constructor <;> decide

/-! ## Claim C10: validate_url escapes before any validation check -/

theorem mem_dropWhile {p : Char → Bool} {c : Char} {l : List Char}
    (hc : p c = false) (hm : c ∈ l) : c ∈ l.dropWhile p := by
  induction l with
  | nil => simp at hm
  | cons a as ih =>
    rw [List.dropWhile_cons]
    split
    · rename_i hpa
      rcases List.mem_cons.mp hm with rfl | hmem
      · rw [hc] at hpa
        simp at hpa
      · exact ih hmem
    · exact hm

theorem mem_stripRight {c : Char} {l : List Char}
    (hc : isPyWS c = false) (hm : c ∈ l) : c ∈ stripRight l := by
  induction l with
  | nil => simp at hm
  | cons a as ih =>
    rw [stripRight]
    rcases List.mem_cons.mp hm with rfl | hmem
    · cases hsr : stripRight as with
      | nil =>
        rw [hc]
        simp
      | cons b bs => simp
    · have hin := ih hmem
      cases hsr : stripRight as with
      | nil => rw [hsr] at hin; simp at hin
      | cons b bs =>
        rw [hsr] at hin
        exact List.mem_cons_of_mem a hin

theorem mem_pyStrip {c : Char} {l : List Char}
    (hc : isPyWS c = false) (hm : c ∈ l) : c ∈ pyStrip l :=
  mem_stripRight hc (mem_dropWhile hc hm)

theorem stripRight_head {l : List Char} {c : Char} {r : List Char}
    (h : stripRight l = c :: r) : l.head? = some c := by
  cases l with
  | nil => simp [stripRight] at h
  | cons a as =>
    rw [stripRight] at h
    cases hsr : stripRight as with
    | nil =>
      rw [hsr] at h
      by_cases hws : isPyWS a
      · rw [if_pos hws] at h
        simp at h
      · rw [if_neg hws] at h
        injection h with h1 _
        rw [h1]
        rfl
    | cons b bs =>
      rw [hsr] at h
      injection h with h1 _
      rw [h1]
      rfl

theorem pyStrip_head_not_ws {l : List Char} {c : Char} {r : List Char}
    (h : pyStrip l = c :: r) : isPyWS c = false := by
  unfold pyStrip at h
  have hh := stripRight_head h
  cases hd : (l.dropWhile isPyWS) with
  | nil => rw [hd] at hh; simp at hh
  | cons d t =>
    rw [hd] at hh
    have h2 := dropWhile_head_not hd
    simp at hh
    rw [← hh]
    exact h2

theorem stripRight_last_not_ws {l : List Char} {c : Char}
    (h : (stripRight l).getLast? = some c) : isPyWS c = false := by
  induction l with
  | nil => simp [stripRight] at h
  | cons a as ih =>
    rw [stripRight] at h
    cases hsr : stripRight as with
    | nil =>
      rw [hsr] at h
      by_cases hws : isPyWS a
      · rw [if_pos hws] at h
        simp at h
      · rw [if_neg hws] at h
        simp at h
        rw [← h]
        simpa using hws
    | cons b bs =>
      rw [hsr] at h
      rw [List.getLast?_cons_cons] at h
      apply ih
      rw [hsr]
      exact h

theorem pyStrip_last_not_ws {l : List Char} {c : Char}
    (h : (pyStrip l).getLast? = some c) : isPyWS c = false :=
  stripRight_last_not_ws h

theorem stripRight_eq_self {l : List Char} {d : Char}
    (h : l.getLast? = some d) (hd : isPyWS d = false) : stripRight l = l := by
  induction l with
  | nil => rfl
  | cons a as ih =>
    rw [stripRight]
    cases has : as with
    | nil =>
      rw [has] at h
      simp at h
      rw [← h] at hd
      rw [stripRight, if_neg (by simp [hd])]
    | cons b bs =>
      have h2 : as.getLast? = some d := by
        rw [has] at h ⊢
        rwa [List.getLast?_cons_cons] at h
      rw [← has]
      rw [ih h2]
      rw [has]

theorem dropWhile_eq_self {p : Char → Bool} {l : List Char} {c : Char}
    (h : l.head? = some c) (hc : p c = false) : l.dropWhile p = l := by
  cases l with
  | nil => rfl
  | cons a as =>
    simp at h
    rw [List.dropWhile_cons]
    rw [h, hc]
    simp

theorem pyStrip_eq_self {l : List Char} {c d : Char}
    (hh : l.head? = some c) (hcw : isPyWS c = false)
    (hl : l.getLast? = some d) (hdw : isPyWS d = false) : pyStrip l = l := by
  unfold pyStrip
  rw [dropWhile_eq_self hh hcw]
  exact stripRight_eq_self hl hdw

theorem escChar_ne_nil (c : Char) : escChar c ≠ [] := by
  unfold escChar
  split_ifs <;> simp

theorem escape_ne_nil {t : List Char} (h : t ≠ []) : escape t ≠ [] := by
  cases t with
  | nil => exact absurd rfl h
  | cons a as =>
    rw [escape]
    intro hx
    rcases List.append_eq_nil.mp hx with ⟨h1, _⟩
    exact escChar_ne_nil a h1

theorem escChar_head_not_ws {c : Char} (hc : isPyWS c = false) :
    ∃ d r, escChar c = d :: r ∧ isPyWS d = false := by
  unfold escChar
  split_ifs <;> first
  | exact ⟨_, _, rfl, by decide⟩
  | exact ⟨c, [], rfl, hc⟩

theorem escChar_last_not_ws {c : Char} (hc : isPyWS c = false) :
    ∃ e, (escChar c).getLast? = some e ∧ isPyWS e = false := by
  unfold escChar
  split_ifs <;> first
  | exact ⟨_, rfl, by decide⟩
  | exact ⟨c, rfl, hc⟩

theorem escape_head_not_ws {t : List Char} {c : Char}
    (hh : t.head? = some c) (hcw : isPyWS c = false) :
    ∃ d, (escape t).head? = some d ∧ isPyWS d = false := by
  cases t with
  | nil => simp at hh
  | cons a as =>
    simp at hh
    rw [escape]
    obtain ⟨d, r, hdr, hdw⟩ := escChar_head_not_ws (hh ▸ hcw)
    exact ⟨d, by rw [hdr]; rfl, hdw⟩

theorem escape_last_not_ws {t : List Char} {c : Char}
    (hl : t.getLast? = some c) (hcw : isPyWS c = false) :
    ∃ e, (escape t).getLast? = some e ∧ isPyWS e = false := by
  induction t with
  | nil => simp at hl
  | cons a as ih =>
    rw [escape]
    cases has : as with
    | nil =>
      rw [has] at hl
      simp at hl
      obtain ⟨e, he, hew⟩ := escChar_last_not_ws (hl ▸ hcw)
      refine ⟨e, ?_, hew⟩
      simp only [escape, List.append_nil]
      exact he
    | cons b bs =>
      have h2 : as.getLast? = some c := by
        rw [has] at hl ⊢
        rwa [List.getLast?_cons_cons] at hl
      obtain ⟨e, he, hew⟩ := ih h2
      refine ⟨e, ?_, hew⟩
      rw [← has]
      rw [List.getLast?_append, he]
      rfl

theorem escChar_length_pos (c : Char) : 1 ≤ (escChar c).length := by
  unfold escChar
  split_ifs <;> simp

theorem special_five {c : Char} (hc : isHtmlSpecial c = true) :
    c = '&' ∨ c = '<' ∨ c = '>' ∨ c = '"' ∨ c = '\'' := by
  simpa [isHtmlSpecial, or_assoc] using hc

theorem escChar_special_length {c : Char} (hc : isHtmlSpecial c = true) :
    2 ≤ (escChar c).length := by
  rcases special_five hc with h | h | h | h | h <;> subst h <;> decide

theorem escape_length_ge (t : List Char) : t.length ≤ (escape t).length := by
  induction t with
  | nil => simp [escape]
  | cons a as ih =>
    rw [escape, List.length_append, List.length_cons]
    have := escChar_length_pos a
    omega

theorem escape_length_lt {t : List Char} {c : Char}
    (hm : c ∈ t) (hc : isHtmlSpecial c = true) :
    t.length < (escape t).length := by
  induction t with
  | nil => simp at hm
  | cons a as ih =>
    rw [escape, List.length_append, List.length_cons]
    rcases List.mem_cons.mp hm with rfl | hmem
    · have h1 := escChar_special_length hc
      have h2 := escape_length_ge as
      omega
    · have h1 := escChar_length_pos a
      have h2 := ih hmem
      omega

theorem special_not_ws {c : Char} (hc : isHtmlSpecial c = true) :
    isPyWS c = false := by
  rcases special_five hc with h | h | h | h | h <;> subst h <;> decide

theorem pyStrip_headq_not_ws {l : List Char} {c : Char}
    (h : (pyStrip l).head? = some c) : isPyWS c = false := by
  cases hp : pyStrip l with
  | nil => rw [hp] at h; simp at h
  | cons a t =>
    rw [hp] at h
    simp at h
    rw [← h]
    exact pyStrip_head_not_ws hp

/-- C10 (amended): `validate_url` HTML-escapes its input before any
validation check, so whenever the input contains one of the special
characters `&`, `<`, `>`, `\"` or `'` AND the escaped stripped input does
not exceed `MAX_URL_LENGTH` (no truncation), the value returned on
success differs from the input. Without the no-truncation hypothesis the
claim is false: see the counterexample. -/
theorem validate_url_escapes (u v : List Char)
    (hok : validate_url u = .ok v)
    (hsp : ∃ c ∈ u, isHtmlSpecial c = true)
    (hlen : (escape (pyStrip u)).length ≤ MAX_URL_LENGTH) :
    v ≠ u := by
  obtain ⟨c, hcu, hcs⟩ := hsp
  have hcw : isPyWS c = false := special_not_ws hcs
  have hu0 : u ≠ [] := List.ne_nil_of_mem hcu
  have hsan : sanitize_string u MAX_URL_LENGTH = escape (pyStrip u) := by
    unfold sanitize_string
    rw [if_neg]
    rintro ⟨_, hgt⟩
    omega
  unfold validate_url at hok
  rw [if_neg hu0] at hok
  rw [hsan] at hok
  simp only [] at hok
  split at hok
  · simp at hok
  split at hok
  · simp at hok
  have hv : v = escape (pyStrip u) := by simpa using hok.symm
  intro heq
  have hueq : u = escape (pyStrip u) := heq.symm.trans hv
  have hct : c ∈ pyStrip u := mem_pyStrip hcw hcu
  have htne : pyStrip u ≠ [] := List.ne_nil_of_mem hct
  have hh0 : (pyStrip u).head? = some ((pyStrip u).head htne) :=
    List.head?_eq_head htne
  have hd : (pyStrip u).getLast? = some ((pyStrip u).getLast htne) :=
    List.getLast?_eq_getLast _ _
  have ht0w := pyStrip_headq_not_ws hh0
  have hdw := pyStrip_last_not_ws hd
  obtain ⟨d2, hof2, hw2⟩ := escape_head_not_ws hh0 ht0w
  obtain ⟨e2, hoe2, hwe2⟩ := escape_last_not_ws hd hdw
  have hps : pyStrip (escape (pyStrip u)) = escape (pyStrip u) :=
    pyStrip_eq_self hof2 hw2 hoe2 hwe2
  have hfix : pyStrip u = escape (pyStrip u) := by
    conv_lhs => rw [hueq]
    exact hps
  have hlt := escape_length_lt hct hcs
  rw [← hfix] at hlt
  exact lt_irrefl _ hlt

theorem listStartsWith_mem {t p : List Char} (h : listStartsWith t p = true) :
    ∀ c ∈ p, c ∈ t := by
  induction p generalizing t with
  | nil => intro c hc; simp at hc
  | cons b bs ih =>
    cases t with
    | nil => simp [listStartsWith] at h
    | cons a as =>
      simp only [listStartsWith, Bool.and_eq_true, decide_eq_true_eq] at h
      intro c hc
      rcases List.mem_cons.mp hc with rfl | hc
      · rw [← h.1]; exact List.mem_cons_self a as
      · exact List.mem_cons_of_mem a (ih h.2 c hc)

theorem containsSub_eq_false {t p : List Char} {c : Char}
    (hcp : c ∈ p) (hct : c ∉ t) : containsSub t p = false := by
  induction t with
  | nil =>
    rw [containsSub]
    have hsw : listStartsWith [] p = false := by
      cases p with
      | nil => exact absurd rfl (List.ne_nil_of_mem hcp)
      | cons b bs => rfl
    rw [hsw]
    simp
  | cons a as ih =>
    rw [containsSub]
    have hsw : listStartsWith (a :: as) p = false := by
      by_contra hx
      exact hct (listStartsWith_mem (Bool.of_not_eq_false hx) c hcp)
    rw [hsw]
    simp only [Bool.false_eq_true, if_false]
    exact ih (fun hc => hct (List.mem_cons_of_mem a hc))

theorem takeWhile_all {p : Char → Bool} {l : List Char}
    (h : ∀ c ∈ l, p c = true) : l.takeWhile p = l := by
  induction l with
  | nil => rfl
  | cons a as ih =>
    have ha := h a (List.mem_cons_self a as)
    simp [List.takeWhile_cons, ha,
      ih (fun c hc => h c (List.mem_cons_of_mem a hc))]

theorem map_self_of {f : Char → Char} {l : List Char}
    (h : ∀ c ∈ l, f c = c) : l.map f = l := by
  induction l with
  | nil => rfl
  | cons a as ih =>
    rw [List.map_cons, h a (List.mem_cons_self a as),
      ih (fun c hc => h c (List.mem_cons_of_mem a hc))]

theorem escChar_not_special {c : Char} (h : isHtmlSpecial c = false) :
    escChar c = [c] := by
  simp only [isHtmlSpecial, Bool.or_eq_false_iff, decide_eq_false_iff_not] at h
  obtain ⟨⟨⟨⟨h1, h2⟩, h3⟩, h4⟩, h5⟩ := h
  simp [escChar, h1, h2, h3, h4, h5]

theorem escape_eq_self {l : List Char}
    (h : ∀ c ∈ l, isHtmlSpecial c = false) : escape l = l := by
  induction l with
  | nil => rfl
  | cons a as ih =>
    rw [escape, escChar_not_special (h a (List.mem_cons_self a as)),
      ih (fun c hc => h c (List.mem_cons_of_mem a hc))]
    rfl

theorem ampTail_chars :
    ∀ c ∈ (List.replicate 499 "amp;".data).flatten ++ "amp".data,
      c = 'a' ∨ c = 'm' ∨ c = 'p' ∨ c = ';' := by
  intro c hc
  rcases List.mem_append.mp hc with hc | hc
  · obtain ⟨l, hl, hcl⟩ := List.mem_flatten.mp hc
    rw [List.eq_of_mem_replicate hl] at hcl
    have he : ("amp;".data : List Char) = ['a', 'm', 'p', ';'] := rfl
    rw [he] at hcl
    simpa using hcl
  · have he : ("amp".data : List Char) = ['a', 'm', 'p'] := rfl
    rw [he] at hc
    simp at hc
    tauto

theorem ampFixpoint_chars :
    ∀ c ∈ ampFixpoint,
      c = '&' ∨ c = 'a' ∨ c = 'm' ∨ c = 'p' ∨ c = ';' := by
  intro c hc
  have hc' : c ∈ '&' :: ((List.replicate 499 "amp;".data).flatten ++ "amp".data) := hc
  rcases List.mem_cons.mp hc' with rfl | hc'
  · exact Or.inl rfl
  · exact Or.inr (ampTail_chars c hc')

theorem flatten_replicate_amp_length (n : Nat) :
    ((List.replicate n "amp;".data).flatten).length = 4 * n := by
  induction n with
  | zero => rfl
  | succ k ih =>
    rw [List.replicate_succ "amp;".data k, List.flatten_cons, List.length_append, ih]
    have h4 : ("amp;".data : List Char).length = 4 := rfl
    rw [h4]
    omega

theorem flatten_replicate_amp_succ (n : Nat) :
    (List.replicate (n + 1) "amp;".data).flatten =
      "amp;".data ++ (List.replicate n "amp;".data).flatten := by
  rw [List.replicate_succ "amp;".data n, List.flatten_cons]

theorem flatten_replicate_amp_succ' (n : Nat) :
    (List.replicate (n + 1) "amp;".data).flatten =
      (List.replicate n "amp;".data).flatten ++ "amp;".data := by
  rw [List.replicate_succ', List.flatten_append]
  simp

theorem escape_ampFixpoint :
    escape ampFixpoint =
      "&amp;".data ++ ((List.replicate 499 "amp;".data).flatten ++ "amp".data) := by
  show escape ('&' :: ((List.replicate 499 "amp;".data).flatten ++ "amp".data)) = _
  rw [escape]
  have h1 : escChar '&' = "&amp;".data := rfl
  have h2 : escape ((List.replicate 499 "amp;".data).flatten ++ "amp".data) =
      (List.replicate 499 "amp;".data).flatten ++ "amp".data :=
    escape_eq_self (fun c hc => by
      rcases ampTail_chars c hc with rfl | rfl | rfl | rfl <;> rfl)
  rw [h1, h2]

theorem take_flatten_1995 :
    ((List.replicate 499 "amp;".data).flatten).take 1995 =
      (List.replicate 498 "amp;".data).flatten ++ "amp".data := by
  rw [flatten_replicate_amp_succ' 498]
  have h : (1995 : Nat) = ((List.replicate 498 "amp;".data).flatten).length + 3 := by
    rw [flatten_replicate_amp_length]
  rw [h, List.take_append 3]
  rfl

theorem take_tail_1995 :
    (((List.replicate 499 "amp;".data).flatten ++ "amp".data)).take 1995 =
      (List.replicate 498 "amp;".data).flatten ++ "amp".data := by
  rw [List.take_append_eq_append_take]
  have hl : ((List.replicate 499 "amp;".data).flatten).length = 1996 := by
    rw [flatten_replicate_amp_length]
  rw [hl]
  have h0 : (1995 : Nat) - 1996 = 0 := rfl
  rw [h0, List.take_zero, List.append_nil, take_flatten_1995]

theorem take_escape_ampFixpoint :
    (escape ampFixpoint).take 2000 = ampFixpoint := by
  rw [escape_ampFixpoint]
  have h : (2000 : Nat) = ("&amp;".data : List Char).length + 1995 := rfl
  rw [h, List.take_append 1995, take_tail_1995]
  show ('&' :: "amp;".data) ++ ((List.replicate 498 "amp;".data).flatten ++ "amp".data) = _
  rw [List.cons_append, ← List.append_assoc, ← flatten_replicate_amp_succ 498]
  rfl

theorem pyStrip_ampFixpoint : pyStrip ampFixpoint = ampFixpoint := by
  have hh : ampFixpoint.head? = some '&' := rfl
  have hl : ampFixpoint.getLast? = some 'p' := by
    have he : ampFixpoint =
        ('&' :: (List.replicate 499 "amp;".data).flatten) ++ "amp".data := rfl
    rw [he, List.getLast?_append]
    rfl
  exact pyStrip_eq_self hh (by decide) hl (by decide)

theorem escape_ampFixpoint_length : (escape ampFixpoint).length = 2004 := by
  rw [escape_ampFixpoint, List.length_append, List.length_append,
    flatten_replicate_amp_length]
  rfl

theorem sanitize_ampFixpoint :
    sanitize_string ampFixpoint MAX_URL_LENGTH = ampFixpoint := by
  unfold sanitize_string
  simp only []
  rw [pyStrip_ampFixpoint]
  have hc : 0 < MAX_URL_LENGTH ∧ MAX_URL_LENGTH < (escape ampFixpoint).length := by
    rw [escape_ampFixpoint_length]
    exact ⟨by decide, by decide⟩
  rw [if_pos hc]
  exact take_escape_ampFixpoint

theorem colon_not_mem_ampFixpoint : ':' ∉ ampFixpoint := by
  intro h
  rcases ampFixpoint_chars ':' h with h | h | h | h | h <;>
    exact absurd h (by decide)

theorem schemeOf_ampFixpoint : schemeOf ampFixpoint = [] := by
  unfold schemeOf
  simp only []
  have hall : ampFixpoint.takeWhile (fun c => c != ':') = ampFixpoint :=
    takeWhile_all (fun c hc => by
      rcases ampFixpoint_chars c hc with rfl | rfl | rfl | rfl | rfl <;> rfl)
  rw [hall, if_neg]
  rintro ⟨hlt, -⟩
  exact absurd hlt (lt_irrefl _)

theorem map_toLower_ampFixpoint : ampFixpoint.map Char.toLower = ampFixpoint :=
  map_self_of (fun c hc => by
    rcases ampFixpoint_chars c hc with rfl | rfl | rfl | rfl | rfl <;> decide)

theorem dangerous_ampFixpoint :
    dangerous_patterns.any
      (fun p => containsSub (ampFixpoint.map Char.toLower) p.data) = false := by
  rw [map_toLower_ampFixpoint]
  have h1 : containsSub ampFixpoint "javascript:".data = false :=
    containsSub_eq_false (by decide) colon_not_mem_ampFixpoint
  have h2 : containsSub ampFixpoint "data:".data = false :=
    containsSub_eq_false (by decide) colon_not_mem_ampFixpoint
  have h3 : containsSub ampFixpoint "vbscript:".data = false :=
    containsSub_eq_false (by decide) colon_not_mem_ampFixpoint
  have h4 : containsSub ampFixpoint "file:".data = false :=
    containsSub_eq_false (by decide) colon_not_mem_ampFixpoint
  simp [dangerous_patterns, h1, h2, h3, h4]

/-- C10 counterexample: the 2000-character URL `&amp;amp;...amp` contains
the special character `&`, yet `validate_url` accepts it and returns it
verbatim: HTML-escaping expands it to 2004 characters and the truncation
to `MAX_URL_LENGTH` reproduces the input exactly. -/
theorem validate_url_fixpoint_counterexample :
    validate_url ampFixpoint = Except.ok ampFixpoint ∧
    '&' ∈ ampFixpoint ∧ isHtmlSpecial '&' = true := by
  refine ⟨?_, ?_, by decide⟩
  · have hne : ampFixpoint ≠ [] := by
      show ('&' :: ((List.replicate 499 "amp;".data).flatten ++ "amp".data)) ≠ []
      exact List.cons_ne_nil _ _
    unfold validate_url
    rw [if_neg hne]
    simp only []
    rw [sanitize_ampFixpoint, schemeOf_ampFixpoint]
    rw [if_neg (by simp)]
    rw [dangerous_ampFixpoint]
    rfl
  · show '&' ∈ '&' :: ((List.replicate 499 "amp;".data).flatten ++ "amp".data)
    exact List.mem_cons_self _ _

/-- Witness for the amended C10 theorem at the concrete URL
`http://a?x=1&y=2`: validation succeeds, the input has a special
character, no truncation occurs, and the returned URL differs from
the input. -/
theorem validate_url_escapes_witness :
    validate_url ampUrl = Except.ok "http://a?x=1&amp;y=2".data ∧
    "http://a?x=1&amp;y=2".data ≠ ampUrl :=
  ⟨by decide,
   validate_url_escapes ampUrl "http://a?x=1&amp;y=2".data (by decide)
     ⟨'&', by decide, by decide⟩ (by decide)⟩
